import Mathlib

/-!
Shallow embedding of the chunked spatial paging store (`mapbuffer.cpp`) of this
repository, together with proofs of the specification claims about it.

Modelling conventions:
* `std::map<tripoint, submap*>` is modelled as an association list
  `List (tripoint × Option submap)`; a key bound to `none` models a key bound to
  a null pointer, and an absent key models an absent key.  The sorted iteration
  order of `std::map` is modelled by the list order; no claim below depends on
  the iteration order.  During `save`, keys inserted by `save_quad`'s uniformity
  scan belong to a quad already in the visited set, so visiting them later in
  the iteration is a no-op; the model therefore iterates over the initial key
  list, which is observationally equivalent.
* Ownership: a tile owned by a `std::unique_ptr` whose insertion into the store
  failed is simply dropped (destroyed); the `released` flag of `AddPtrResult`
  records whether `release()` was called on the caller's handle.
* `debugmsg` diagnostics are modelled as strings appended to an explicit log.
* Dereferencing a null `submap` handle (the `sm->load` call reached when the
  coordinate member is not first in a record) is undefined behaviour in the
  source; it is modelled as the un-catchable outcome `crash`.
* The filesystem is a list of `(path, chunk)` pairs; `write_to_file` effects are
  returned as a list of writes, and directory creations as a list of names.
-/

namespace Cata

/-- Signed 3D integer coordinate (source struct `tripoint`, zero-initialised by
its default constructor). -/
structure tripoint where
  x : Int
  y : Int
  z : Int
deriving DecidableEq

/-- Signed 2D integer coordinate (source struct `point`). -/
structure point where
  x : Int
  y : Int
deriving DecidableEq

/-- Modelled from the spec: coordinate mapper (`coordinate_conversions.h`, not
under `src/`): tile (submap) coordinate to quad (overmap-terrain) coordinate,
floor-dividing the horizontal axes by 2, vertical axis unchanged (§4.1). -/
def sm_to_omt_copy (p : tripoint) : tripoint :=
  ⟨p.x.fdiv 2, p.y.fdiv 2, p.z⟩

/-- Modelled from the spec: quad coordinate to its lowest-offset member tile
coordinate, scaling the horizontal axes by 2 (§4.1). -/
def omt_to_sm_copy (p : tripoint) : tripoint :=
  ⟨2 * p.x, 2 * p.y, p.z⟩

/-- Modelled from the spec: quad coordinate to segment coordinate,
floor-dividing the horizontal axes by 32 (§4.1, glossary: a segment is a 32×32
group of quads). -/
def omt_to_seg_copy (p : tripoint) : tripoint :=
  ⟨p.x.fdiv 32, p.y.fdiv 32, p.z⟩

/-- Modelled from the spec: submap coordinate to map-square coordinate; a tile
is a fixed-size (12×12) grid, so horizontal axes scale by 12. -/
def sm_to_ms_copy (p : tripoint) : tripoint :=
  ⟨12 * p.x, 12 * p.y, p.z⟩

/-- Modelled from the spec: scale the horizontal axes of a coordinate
(source helper `multiply_xy`). -/
def multiply_xy (p : tripoint) (f : Int) : tripoint :=
  ⟨p.x * f, p.y * f, p.z⟩

/-- Modelled from the spec: the fixed half-width of the horizontal deletion
window around the active origin (source constant `HALF_MAPSIZE` from
`game_constants.h`, not under `src/`).  No claim depends on its numeric value. -/
def HALF_MAPSIZE : Int := 5

/-- Modelled from the spec: the chunk record format version tag (source constant
`savegame_version`, not under `src/`).  No claim depends on its numeric value. -/
def savegame_version : Int := 33

/-- Decimal digit to character. -/
def dtoc (d : Nat) : Char := Char.ofNat (48 + d)

/-- Character to decimal digit (left inverse of `dtoc` on digits). -/
def ctod (c : Char) : Nat := c.toNat - 48

/-- Little-endian base-10 digit list, structurally recursive on a fuel bound so
that it is kernel-reducible.  Equal to `Nat.digits 10` (proved below). -/
def digitsRevGo : Nat → Nat → List Nat
  | 0, _ => []
  | _ + 1, 0 => []
  | fuel + 1, n + 1 => ((n + 1) % 10) :: digitsRevGo fuel ((n + 1) / 10)

/-- Little-endian base-10 digit list of a natural number. -/
def natDigits (n : Nat) : List Nat := digitsRevGo n n

/-- Decimal string of a natural number. -/
def natStr (n : Nat) : String :=
  if n = 0 then "0" else ⟨((natDigits n).map dtoc).reverse⟩

/-- Modelled from the spec: locale-independent decimal formatting of a signed
integer, as produced by `string_format` with a `%d` conversion. -/
def itos (i : Int) : String :=
  if i < 0 then "-" ++ natStr i.natAbs else natStr i.natAbs

/-- Chunk file path for a quad inside a segment directory
(source `find_quad_path`): the filename embeds the three quad coordinates. -/
def find_quad_path (dirname : String) (om_addr : tripoint) : String :=
  dirname ++ "/" ++ itos om_addr.x ++ "." ++ itos om_addr.y ++ "." ++
    itos om_addr.z ++ ".map"

/-- Segment directory for a quad (source `find_dirname`); the per-world save
root (`g->get_world_base_save_path()`) is passed as a parameter. -/
def find_dirname (world_root : String) (om_addr : tripoint) : String :=
  let seg := omt_to_seg_copy om_addr
  world_root ++ "/maps/" ++ itos seg.x ++ "." ++ itos seg.y ++ "." ++ itos seg.z

/-- Modelled from the spec: the legacy chunk path probed by the read fallback;
it is built by streaming the three quad coordinates through the current global
locale's integer formatting (which may insert thousands separators), exactly as
the `std::ostringstream` in `unserialize_submaps` does. -/
def legacy_quad_path (loc : Int → String) (dirname : String) (om_addr : tripoint) :
    String :=
  dirname ++ "/" ++ loc om_addr.x ++ "." ++ loc om_addr.y ++ "." ++
    loc om_addr.z ++ ".map"

/-- Structured value occurring as a member value in a chunk record: an integer
or an array of integers. -/
inductive JValue where
  | jint : Int → JValue
  | jarr : List Int → JValue
deriving DecidableEq

/-- One record of a chunk file: an ordered list of named members. -/
abbrev Record := List (String × JValue)

/-- A chunk file: an ordered sequence of records. -/
abbrev Chunk := List Record

/-- Modelled from the spec: payload member names of the opaque tile codec are
fixed field identifiers, distinct from the two structural member names
`version` and `coordinates` (§4.2, §6). -/
abbrev PayName := { s : String // s ≠ "version" ∧ s ≠ "coordinates" }

/-- Terrain tile (source class `submap`, defined outside `src/`).  Modelled
from the spec: an opaque payload of named fields, a `uniform` flag meaning the
content need not be persisted, and the absolute position handed to the
constructor.  A freshly constructed tile has an empty payload and is not
uniform. -/
structure submap where
  pos : tripoint
  is_uniform : Bool
  payload : List (PayName × Int)
deriving DecidableEq

/-- Modelled from the spec: tile construction at an absolute map-square
position (`std::make_unique<submap>(...)`). -/
def make_submap (p : tripoint) : submap :=
  ⟨p, false, []⟩

/-- Modelled from the spec: the opaque tile payload codec's write half
(`submap::store`), emitting the payload fields in order (§6). -/
def submap.store (sm : submap) : List (String × JValue) :=
  sm.payload.map fun f => (f.1.val, JValue.jint f.2)

/-- Modelled from the spec: the opaque tile payload codec's read half
(`submap::load`), consuming one named field; a structurally unexpected value is
a decoding failure, reported by exception (§6, §7). -/
def submap.load (sm : submap) (name : PayName) (v : JValue) (_version : Int)
    (_offset : tripoint) : Except String submap :=
  match v with
  | JValue.jint n => Except.ok ⟨sm.pos, sm.is_uniform, sm.payload ++ [(name, n)]⟩
  | JValue.jarr _ => Except.error "unexpected value for a payload member"

/-- First-match association-list lookup (models `std::map::find`). -/
def alookup {α β : Type} [DecidableEq α] : List (α × β) → α → Option β
  | [], _ => none
  | e :: rest, k => if e.1 = k then some e.2 else alookup rest k

/-- Remove every binding of a key (models `std::map::erase`; on the duplicate
free states reachable from map operations this removes the unique binding). -/
def aerase {α β : Type} [DecidableEq α] (l : List (α × β)) (k : α) :
    List (α × β) :=
  l.filter fun e => decide (e.1 ≠ k)

/-- The working-set store: coordinate → owned tile (source class `mapbuffer`);
a binding to `none` models a key mapped to a null pointer. -/
structure mapbuffer where
  submaps : List (tripoint × Option submap)
deriving DecidableEq

/-- Tile insertion, raw-pointer overload (source `mapbuffer::add_submap`):
false if the key is already bound (even to null), otherwise binds it. -/
def mapbuffer.add_submap (b : mapbuffer) (p : tripoint) (sm : Option submap) :
    mapbuffer × Bool :=
  if (alookup b.submaps p).isSome then (b, false)
  else (⟨b.submaps ++ [(p, sm)]⟩, true)

/-- Result of the owning-handle insertion overload: the new store, the returned
boolean, and whether `release()` was called on the caller's handle. -/
structure AddPtrResult where
  buf : mapbuffer
  result : Bool
  released : Bool
deriving DecidableEq

/-- Tile insertion, owning-handle overload (source `mapbuffer::add_submap` on
`std::unique_ptr<submap>&`): delegates to the raw overload and releases the
caller's handle only on success. -/
def mapbuffer.add_submap_ptr (b : mapbuffer) (p : tripoint) (sm : Option submap) :
    AddPtrResult :=
  let r := b.add_submap p sm
  ⟨r.1, r.2, r.2⟩

/-- Diagnostic emitted when removing a non-resident coordinate. -/
def removeMissingMsg (addr : tripoint) : String :=
  "Tried to remove non-existing submap " ++ itos addr.x ++ "," ++
    itos addr.y ++ "," ++ itos addr.z

/-- Tile removal (source `mapbuffer::remove_submap`): deletes the owned tile
and erases the key; a diagnostic no-op when the key is absent. -/
def mapbuffer.remove_submap (b : mapbuffer) (log : List String) (addr : tripoint) :
    mapbuffer × List String :=
  match alookup b.submaps addr with
  | none => (b, log ++ [removeMissingMsg addr])
  | some _ => (⟨aerase b.submaps addr⟩, log)

/-- Index subscripting (`submaps[p]`, `std::map::operator[]`): default-inserts
a null binding for an absent key and returns the bound value. -/
def mapbuffer.subscript (b : mapbuffer) (p : tripoint) :
    mapbuffer × Option submap :=
  match alookup b.submaps p with
  | some v => (b, v)
  | none => (⟨b.submaps ++ [(p, none)]⟩, none)

/-- Diagnostic emitted when a decoded record's coordinate is already resident. -/
def dupMsg (p : tripoint) : String :=
  "submap " ++ itos p.x ++ "," ++ itos p.y ++ "," ++ itos p.z ++
    " was already loaded"

/-- Diagnostic emitted when a payload member is reached before the coordinate
member of a record. -/
def coordNotFirstMsg : String :=
  "coordinates was not at the top of submap json"

/-- Diagnostic emitted when a successfully decoded chunk does not contain the
requested coordinate. -/
def missingExpectedMsg (path : String) (p : tripoint) : String :=
  "file " ++ path ++ " did not contain the expected submap " ++ itos p.x ++
    "," ++ itos p.y ++ "," ++ itos p.z

/-- Diagnostic emitted at the read boundary when decoding a file fails. -/
def readFailMsg (path : String) (cause : String) : String :=
  "Failed to read from " ++ path ++ ": " ++ cause

/-- Per-record decoding state of `mapbuffer::deserialize`: the tile under
construction (none until the coordinate member is seen), the decoded
coordinate (zero-initialised, like the source's default-constructed
`tripoint`), the version tag, and the diagnostics log. -/
structure RecSt where
  sm : Option submap
  submap_coordinates : tripoint
  version : Int
  log : List String

/-- Outcome of the member loop of one record: normal completion, a decoding
exception (carrying the log and the cause), or the undefined-behaviour crash of
calling the tile loader through a null handle. -/
inductive RecOut where
  | done : RecSt → RecOut
  | jsonFail : List String → String → RecOut
  | crashed : List String → RecOut

/-- Member loop of one record (the inner `while( !jsin.end_object() )` of
`mapbuffer::deserialize`): a `version` member stores the version; a
`coordinates` member must be a 3-element integer array and constructs the tile
at that position; any other member is forwarded to the tile codec — through a
null handle (a crash) if the coordinate member has not been seen yet, after
logging the diagnostic. -/
def readMembers : List (String × JValue) → RecSt → RecOut
  | [], st => RecOut.done st
  | (name, v) :: rest, st =>
    if hv : name = "version" then
      match v with
      | JValue.jint n => readMembers rest ⟨st.sm, st.submap_coordinates, n, st.log⟩
      | JValue.jarr _ => RecOut.jsonFail st.log "expected an integer for version"
    else if hc : name = "coordinates" then
      match v with
      | JValue.jarr [i, j, k] =>
        let loc : tripoint := ⟨i, j, k⟩
        readMembers rest ⟨some (make_submap (sm_to_ms_copy loc)), loc, st.version, st.log⟩
      | _ => RecOut.jsonFail st.log "failed to decode submap coordinates"
    else
      match st.sm with
      | none => RecOut.crashed (st.log ++ [coordNotFirstMsg])
      | some s =>
        match s.load ⟨name, hv, hc⟩ v st.version (multiply_xy st.submap_coordinates 12) with
        | Except.ok s' => readMembers rest ⟨some s', st.submap_coordinates, st.version, st.log⟩
        | Except.error e => RecOut.jsonFail st.log e

/-- Outcome of decoding a whole chunk. -/
inductive LoadOutcome where
  | ok : LoadOutcome
  | jsonErr : String → LoadOutcome
  | crash : LoadOutcome
deriving DecidableEq

/-- Chunk read path (source `mapbuffer::deserialize`): decode the records in
order; each completed record is inserted through the owning-handle insertion,
whose failure (a duplicate) is logged and does not stop the remaining records;
a decoding exception aborts the remaining records (already-inserted tiles
stay), and the null-handle crash aborts everything. -/
def mapbuffer.deserialize : Chunk → mapbuffer → List String →
    LoadOutcome × mapbuffer × List String
  | [], b, log => (LoadOutcome.ok, b, log)
  | r :: rest, b, log =>
    match readMembers r ⟨none, ⟨0, 0, 0⟩, 0, log⟩ with
    | RecOut.done st =>
      let a := b.add_submap_ptr st.submap_coordinates st.sm
      let log2 := if a.result then st.log else st.log ++ [dupMsg st.submap_coordinates]
      mapbuffer.deserialize rest a.buf log2
    | RecOut.jsonFail l msg => (LoadOutcome.jsonErr msg, b, l)
    | RecOut.crashed l => (LoadOutcome.crash, b, l)

/-- The external world of the store: the per-save root directory, the
filesystem contents, and the global locale's integer formatting (used only by
the legacy path probe). -/
structure World where
  world_root : String
  fs : List (String × Chunk)
  locale : Int → String

/-- Modelled from the spec: filesystem existence check (`file_exist`). -/
def file_exist (fs : List (String × Chunk)) (path : String) : Bool :=
  (alookup fs path).isSome

/-- Result of a lookup call: a normal return (value, store, log) or the
propagation of the undefined-behaviour crash. -/
inductive CallResult where
  | ret : Option submap → mapbuffer → List String → CallResult
  | crashed : mapbuffer → List String → CallResult
deriving DecidableEq

/-- Demand load of the quad containing a coordinate (source
`mapbuffer::unserialize_submaps`): derive the canonical chunk path, fall back
to the legacy locale-formatted name when the canonical file is absent, and run
the chunk read path.  An absent file returns absence.  Modelled from the spec:
the read helper (`read_from_file_optional_json`, not under `src/`) catches
decoding exceptions at the load boundary, logs the attempted path and cause,
and converts them to failure (§7); the store then reports absence.  After a
successful decode the residency of the requested coordinate is checked once
more. -/
def mapbuffer.unserialize_submaps (b : mapbuffer) (w : World) (log : List String)
    (p : tripoint) : CallResult :=
  let om_addr := sm_to_omt_copy p
  let dirname := find_dirname w.world_root om_addr
  let canonical := find_quad_path dirname om_addr
  let quad_path :=
    if file_exist w.fs canonical then canonical
    else
      let legacy := legacy_quad_path w.locale dirname om_addr
      if file_exist w.fs legacy then legacy else canonical
  match alookup w.fs quad_path with
  | none => CallResult.ret none b log
  | some chunk =>
    match mapbuffer.deserialize chunk b log with
    | (LoadOutcome.ok, b', log') =>
      match alookup b'.submaps p with
      | none => CallResult.ret none b' (log' ++ [missingExpectedMsg quad_path p])
      | some v => CallResult.ret v b' log'
    | (LoadOutcome.jsonErr msg, b', log') =>
      CallResult.ret none b' (log' ++ [readFailMsg quad_path msg])
    | (LoadOutcome.crash, b', log') => CallResult.crashed b' log'

/-- Tile lookup (source `mapbuffer::lookup_submap`): return the resident
binding if the key is present; otherwise demand-load its quad.  The
surrounding try/catch converts any escaping exception to a logged absence; in
this model decoding exceptions are already absorbed at the read boundary, and
the null-handle crash is not an exception, so it propagates. -/
def mapbuffer.lookup_submap (b : mapbuffer) (w : World) (log : List String)
    (p : tripoint) : CallResult :=
  match alookup b.submaps p with
  | none => b.unserialize_submaps w log p
  | some v => CallResult.ret v b log

/-- Ambient simulation state consulted by the flush path: the active origin in
quad coordinates (`sm_to_omt_copy( get_abs_sub() )`), whether the map has
z-levels, the current vertical level, and the global map-generation-disabled
flag (declared outside `src/`). -/
structure GameCtx where
  map_origin : tripoint
  map_has_zlevels : Bool
  levz : Int
  disable_mapgen : Bool

/-- The four member offsets of a quad, in source order
(`point_zero, point_south, point_east, point_south_east`). -/
def quad_offsets : List point := [⟨0, 0⟩, ⟨0, 1⟩, ⟨1, 0⟩, ⟨1, 1⟩]

/-- The four member tile coordinates of a quad, in source order. -/
def submap_addrs_of (om_addr : tripoint) : List tripoint :=
  quad_offsets.map fun o =>
    let base := omt_to_sm_copy om_addr
    ⟨base.x + o.x, base.y + o.y, base.z⟩

/-- Result of the chunk write path for one quad: the store (mutated by the
uniformity scan's default insertions), the deletion queue, and at most one
file write and one directory creation. -/
structure QuadOut where
  buf : mapbuffer
  to_delete : List tripoint
  write : Option (String × Chunk)
  dir : Option String

/-- One step of the uniformity scan: subscript the index at a member
coordinate (default-inserting a null binding) and clear the flag when a
non-null, non-uniform tile is found. -/
def scanStep (acc : mapbuffer × Bool) (addr : tripoint) : mapbuffer × Bool :=
  let s := acc.1.subscript addr
  let all :=
    match s.2 with
    | some sm => if sm.is_uniform then acc.2 else false
    | none => acc.2
  (s.1, all)

/-- Encode one resident member as a chunk record: the version tag, the
coordinate triple, then the opaque payload fields. -/
def encodeRecord (addr : tripoint) (sm : submap) : Record :=
  ("version", JValue.jint savegame_version) ::
    ("coordinates", JValue.jarr [addr.x, addr.y, addr.z]) :: sm.store

/-- One step of the record-writing loop of `save_quad`: skip absent or null
members, encode the rest, and queue them for deletion when requested. -/
def writeStep (b : mapbuffer) (delete_after_save : Bool)
    (acc : Chunk × List tripoint) (addr : tripoint) : Chunk × List tripoint :=
  match alookup b.submaps addr with
  | none => acc
  | some none => acc
  | some (some sm) =>
    (acc.1 ++ [encodeRecord addr sm],
     if delete_after_save then acc.2 ++ [addr] else acc.2)

/-- Chunk write path for one quad (source `mapbuffer::save_quad`): scan the
four members for uniformity (subscripting the index, which default-inserts
null bindings for absent members); a fully uniform quad writes nothing and,
when deletion was requested, queues its resident members; otherwise, unless
map generation is globally disabled, create the segment directory and write
one record per resident member, queueing them for deletion when requested. -/
def mapbuffer.save_quad (b : mapbuffer) (ctx : GameCtx) (dirname filename : String)
    (om_addr : tripoint) (submaps_to_delete : List tripoint)
    (delete_after_save : Bool) : QuadOut :=
  let submap_addrs := submap_addrs_of om_addr
  let scan := submap_addrs.foldl scanStep (b, true)
  let b1 := scan.1
  let all_uniform := scan.2
  if all_uniform then
    if delete_after_save then
      let adds := submap_addrs.filter fun addr =>
        match alookup b1.submaps addr with
        | some (some _) => true
        | _ => false
      ⟨b1, submaps_to_delete ++ adds, none, none⟩
    else ⟨b1, submaps_to_delete, none, none⟩
  else if ctx.disable_mapgen then
    ⟨b1, submaps_to_delete, none, none⟩
  else
    let w := submap_addrs.foldl (writeStep b1 delete_after_save) ([], [])
    ⟨b1, submaps_to_delete ++ w.2, some (filename, w.1), some dirname⟩

/-- The quad-deletion eligibility used by `mapbuffer::save`: a global request,
a vertical level other than the active one on a map without z-levels, or a
quad outside the fixed horizontal window beyond the active origin. -/
def delete_cond (ctx : GameCtx) (delete_after_save : Bool) (om_addr : tripoint) :
    Bool :=
  delete_after_save ||
    (!ctx.map_has_zlevels && decide (om_addr.z ≠ ctx.levz)) ||
    decide (om_addr.x < ctx.map_origin.x) ||
    decide (om_addr.y < ctx.map_origin.y) ||
    decide (om_addr.x > ctx.map_origin.x + HALF_MAPSIZE) ||
    decide (om_addr.y > ctx.map_origin.y + HALF_MAPSIZE)

/-- Accumulated state of the flush iteration: the store, the visited-set of
already saved quads, the deferred deletion queue, the file writes, the
directory creations, and the quads for which the chunk write path was
invoked, in order. -/
structure SaveSt where
  buf : mapbuffer
  saved_submaps : List tripoint
  submaps_to_delete : List tripoint
  writes : List (String × Chunk)
  dirs : List String
  quads : List tripoint

/-- One step of the flush iteration (the body of the `for` loop of
`mapbuffer::save`): map the key to its quad, skip it when the quad was already
saved, otherwise record the quad as saved and run the chunk write path with
the quad's deletion eligibility. -/
def saveStep (ctx : GameCtx) (world_root : String) (delete_after_save : Bool)
    (st : SaveSt) (k : tripoint) : SaveSt :=
  let om_addr := sm_to_omt_copy k
  if st.saved_submaps.contains om_addr then st
  else
    let dirname := find_dirname world_root om_addr
    let quad_path := find_quad_path dirname om_addr
    let q := st.buf.save_quad ctx dirname quad_path om_addr st.submaps_to_delete
      (delete_cond ctx delete_after_save om_addr)
    ⟨q.buf, st.saved_submaps ++ [om_addr], q.to_delete,
      st.writes ++ q.write.toList, st.dirs ++ q.dir.toList,
      st.quads ++ [om_addr]⟩

/-- Result of a flush: the store, the log, the file writes and directory
creations, the deletion queue that was processed, and the quads for which the
chunk write path was invoked. -/
structure SaveOut where
  buf : mapbuffer
  log : List String
  writes : List (String × Chunk)
  dirs : List String
  deleted : List tripoint
  quads : List tripoint

/-- Flush (source `mapbuffer::save`): iterate the resident keys, group them by
quad through the visited-set, run the chunk write path once per quad, then
remove every queued tile in a second pass.  The progress popup and event
pumping have no effect on the store and are not modelled. -/
def mapbuffer.save (b : mapbuffer) (ctx : GameCtx) (world_root : String)
    (log : List String) (delete_after_save : Bool) : SaveOut :=
  let keys := b.submaps.map Prod.fst
  let st := keys.foldl (saveStep ctx world_root delete_after_save)
    ⟨b, [], [], [], [world_root ++ "/maps"], []⟩
  let fin := st.submaps_to_delete.foldl
    (fun acc addr => acc.1.remove_submap acc.2 addr) (st.buf, log)
  ⟨fin.1, fin.2, st.writes, st.dirs, st.submaps_to_delete, st.quads⟩

/-- Overwriting application of a list of file writes to a filesystem: a later
write shadows both the original contents and earlier writes. -/
def applyWrites (fs : List (String × Chunk)) (ws : List (String × Chunk)) :
    List (String × Chunk) :=
  ws.reverse ++ fs

/-- The canonical chunk path of a quad under a world root. -/
def canonPath (world_root : String) (q : tripoint) : String :=
  find_quad_path (find_dirname world_root q) q

/-- A quad all of whose member slots hold either no tile (absent key or null
binding) or a tile marked uniform. -/
def allUniformAt (b : mapbuffer) (q : tripoint) : Prop :=
  ∀ m ∈ submap_addrs_of q, ∀ s, alookup b.submaps m = some (some s) →
    s.is_uniform = true

/-- The chunk the write path emits for a quad: one record per resident member,
in member order. -/
def encodeQuad (b : mapbuffer) (q : tripoint) : Chunk :=
  (submap_addrs_of q).filterMap fun m =>
    match alookup b.submaps m with
    | some (some sm) => some (encodeRecord m sm)
    | _ => none

/-- The resident tile at a coordinate, if any (a null or absent binding is
not resident). -/
def residentVal (b : mapbuffer) (m : tripoint) : Option submap :=
  match alookup b.submaps m with
  | some (some s) => some s
  | _ => none

/-- Whether a member slot holds no tile or a tile marked uniform. -/
def nullOrUniform (b : mapbuffer) (m : tripoint) : Bool :=
  match alookup b.submaps m with
  | some (some s) => s.is_uniform
  | _ => true

/-- Whether a coordinate holds a resident (live) tile. -/
def isResident (b : mapbuffer) (m : tripoint) : Bool :=
  match alookup b.submaps m with
  | some (some _) => true
  | _ => false

/-- The member coordinates of a quad holding resident tiles, in member order. -/
def residentMembers (b : mapbuffer) (q : tripoint) : List tripoint :=
  (submap_addrs_of q).filter (isResident b)

/-- Boolean form of the fully-elidable-quad condition computed by the
uniformity scan. -/
def allUniformBool (b : mapbuffer) (q : tripoint) : Bool :=
  (submap_addrs_of q).all (nullOrUniform b)

/-- The resident members of a quad paired with their tiles, in member order. -/
def recsOf (b : mapbuffer) (q : tripoint) : List (tripoint × submap) :=
  (submap_addrs_of q).filterMap fun m => (residentVal b m).map fun s => (m, s)

/-- The tile reconstructed by the read path from the record of member `m`
holding tile `sm`. -/
def freshTile (r : tripoint × submap) : submap :=
  ⟨sm_to_ms_copy r.1, false, r.2.payload⟩

/-- Relation between a store and an evolution of it by default-inserted null
bindings only: every binding is unchanged, or was absent and is now null. -/
def presOrNull (b b' : mapbuffer) (p : tripoint) : Prop :=
  alookup b'.submaps p = alookup b.submaps p ∨
    (alookup b.submaps p = none ∧ alookup b'.submaps p = some none)

/-- The flush iteration state after the first phase of `save` (before the
deferred deletion pass). -/
def saveState (b : mapbuffer) (ctx : GameCtx) (root : String) (del : Bool) :
    SaveSt :=
  (b.submaps.map Prod.fst).foldl (saveStep ctx root del)
    ⟨b, [], [], [], [root ++ "/maps"], []⟩

/-- Invariant of the flush iteration, relating the accumulated state to the
initial store `b`: the processed-quad list equals the visited-set and is
duplicate-free; the store evolves only by default-inserted null bindings, at
members of visited quads; every write is the canonical chunk of a visited,
not-fully-uniform quad (with map generation enabled), and every such quad has
its write; the deletion queue holds only tiles resident in `b`, and holds
every resident member of a visited quad that is eligible for deletion. -/
structure SaveInv (b : mapbuffer) (ctx : GameCtx) (root : String) (del : Bool)
    (st : SaveSt) : Prop where
  quads_eq : st.quads = st.saved_submaps
  nodup : st.saved_submaps.Nodup
  buf_pres : ∀ p, presOrNull b st.buf p
  buf_some : ∀ p, sm_to_omt_copy p ∈ st.saved_submaps →
    (alookup st.buf.submaps p).isSome
  buf_frame : ∀ p, sm_to_omt_copy p ∉ st.saved_submaps →
    alookup st.buf.submaps p = alookup b.submaps p
  writes_shape : ∀ e ∈ st.writes, ∃ q, q ∈ st.saved_submaps ∧
    e.1 = canonPath root q ∧ e.2 = encodeQuad b q ∧
    allUniformBool b q = false ∧ ctx.disable_mapgen = false
  writes_exist : ∀ q ∈ st.saved_submaps, allUniformBool b q = false →
    ctx.disable_mapgen = false →
    (canonPath root q, encodeQuad b q) ∈ st.writes
  del_resident : ∀ m ∈ st.submaps_to_delete, isResident b m = true
  del_complete : ∀ q ∈ st.saved_submaps, delete_cond ctx del q = true →
    (allUniformBool b q = true ∨ ctx.disable_mapgen = false) →
    ∀ m ∈ submap_addrs_of q, isResident b m = true →
    m ∈ st.submaps_to_delete

/-! ### Basic association-list lemmas -/

@[simp] theorem alookup_nil {α β : Type} [DecidableEq α] (k : α) :
    alookup ([] : List (α × β)) k = none := rfl

@[simp] theorem alookup_cons {α β : Type} [DecidableEq α] (e : α × β)
    (l : List (α × β)) (k : α) :
    alookup (e :: l) k = if e.1 = k then some e.2 else alookup l k := rfl

theorem alookup_append {α β : Type} [DecidableEq α] (l1 l2 : List (α × β))
    (k : α) :
    alookup (l1 ++ l2) k =
      match alookup l1 k with
      | some v => some v
      | none => alookup l2 k := by
  induction l1 with
  | nil => simp
  | cons e rest ih =>
    by_cases h : e.1 = k <;> simp [h, ih]

theorem alookup_append_of_some {α β : Type} [DecidableEq α] {l1 : List (α × β)}
    {k : α} {v : β} (l2 : List (α × β)) (h : alookup l1 k = some v) :
    alookup (l1 ++ l2) k = some v := by
  rw [alookup_append, h]

theorem alookup_append_of_none {α β : Type} [DecidableEq α] {l1 : List (α × β)}
    {k : α} (l2 : List (α × β)) (h : alookup l1 k = none) :
    alookup (l1 ++ l2) k = alookup l2 k := by
  rw [alookup_append, h]

theorem aerase_nil {α β : Type} [DecidableEq α] (k : α) :
    aerase ([] : List (α × β)) k = [] := rfl

theorem aerase_cons {α β : Type} [DecidableEq α] (e : α × β) (l : List (α × β))
    (k : α) :
    aerase (e :: l) k = if e.1 = k then aerase l k else e :: aerase l k := by
  by_cases h : e.1 = k <;> simp [aerase, List.filter_cons, h]

theorem alookup_aerase_self {α β : Type} [DecidableEq α] (l : List (α × β))
    (k : α) : alookup (aerase l k) k = none := by
  induction l with
  | nil => rfl
  | cons e rest ih =>
    rw [aerase_cons]
    by_cases h : e.1 = k <;> simp [h, ih]

theorem alookup_aerase_ne {α β : Type} [DecidableEq α] (l : List (α × β))
    {k k' : α} (h : k' ≠ k) : alookup (aerase l k) k' = alookup l k' := by
  induction l with
  | nil => rfl
  | cons e rest ih =>
    rw [aerase_cons]
    have hkk : ¬ k = k' := fun hh => h hh.symm
    by_cases he : e.1 = k
    · have hek : ¬ e.1 = k' := fun hh => h (hh ▸ he)
      simp [he, hek, hkk, ih]
    · by_cases he' : e.1 = k' <;> simp [he, he', h, hkk, ih]

/-! ### Decimal formatting: agreement with `Nat.digits`, injectivity,
character facts -/

theorem digitsRevGo_eq (fuel n : Nat) (h : n ≤ fuel) :
    digitsRevGo fuel n = Nat.digits 10 n := by
  induction fuel generalizing n with
  | zero =>
    have hn : n = 0 := Nat.le_zero.mp h
    subst hn
    simp [digitsRevGo]
  | succ f ih =>
    cases n with
    | zero => simp [digitsRevGo]
    | succ m =>
      rw [digitsRevGo, Nat.digits_def' (by norm_num) (Nat.succ_pos m)]
      have hlt : (m + 1) / 10 < m + 1 := Nat.div_lt_self (Nat.succ_pos m) (by norm_num)
      rw [ih _ (Nat.le_of_lt_succ (Nat.lt_of_lt_of_le hlt h))]

theorem natDigits_eq (n : Nat) : natDigits n = Nat.digits 10 n :=
  digitsRevGo_eq n n le_rfl

theorem natDigits_lt (n : Nat) : ∀ d ∈ natDigits n, d < 10 := by
  rw [natDigits_eq]
  exact fun d hd => Nat.digits_lt_base (by norm_num) hd

theorem ctod_dtoc : ∀ d, d < 10 → ctod (dtoc d) = d := by decide

theorem dtoc_sep_free : ∀ d, d < 10 →
    dtoc d ≠ '.' ∧ dtoc d ≠ '/' ∧ dtoc d ≠ '-' := by decide

theorem map_dtoc_inj : ∀ (l1 l2 : List Nat), (∀ d ∈ l1, d < 10) →
    (∀ d ∈ l2, d < 10) → l1.map dtoc = l2.map dtoc → l1 = l2 := by
  intro l1
  induction l1 with
  | nil =>
    intro l2 _ _ h
    cases l2 with
    | nil => rfl
    | cons b t2 => simp at h
  | cons a t ih =>
    intro l2 h1 h2 h
    cases l2 with
    | nil => simp at h
    | cons b t2 =>
      simp only [List.map_cons, List.cons.injEq] at h
      have hab : a = b := by
        have hc := congrArg ctod h.1
        rwa [ctod_dtoc a (h1 a (List.mem_cons_self a t)),
          ctod_dtoc b (h2 b (List.mem_cons_self b t2))] at hc
      have ht : t = t2 :=
        ih t2 (fun d hd => h1 d (List.mem_cons_of_mem a hd))
          (fun d hd => h2 d (List.mem_cons_of_mem b hd)) h.2
      rw [hab, ht]

theorem natStr_data (n : Nat) : (natStr n).data =
    if n = 0 then ['0'] else ((natDigits n).map dtoc).reverse := by
  by_cases h : n = 0 <;> simp [natStr, h]

theorem natStr_inj {n m : Nat} (h : natStr n = natStr m) : n = m := by
  have hd := congrArg String.data h
  rw [natStr_data, natStr_data] at hd
  by_cases hn : n = 0 <;> by_cases hm : m = 0
  · rw [hn, hm]
  · exfalso
    simp only [hn, if_pos rfl, if_neg hm] at hd
    have hmap : (natDigits m).map dtoc = ['0'] := by
      have := congrArg List.reverse hd
      simpa using this.symm
    have : natDigits m = [0] := by
      apply map_dtoc_inj _ _ (natDigits_lt m) (by intro d hd'; simp at hd'; omega)
      rw [hmap]; decide
    have hz : Nat.digits 10 m = [0] := by rw [← natDigits_eq]; exact this
    have := Nat.ofDigits_digits 10 m
    rw [hz] at this
    simp [Nat.ofDigits] at this
    exact hm this.symm
  · exfalso
    simp only [hm, if_pos rfl, if_neg hn] at hd
    have hmap : (natDigits n).map dtoc = ['0'] := by
      have := congrArg List.reverse hd
      simpa using this
    have : natDigits n = [0] := by
      apply map_dtoc_inj _ _ (natDigits_lt n) (by intro d hd'; simp at hd'; omega)
      rw [hmap]; decide
    have hz : Nat.digits 10 n = [0] := by rw [← natDigits_eq]; exact this
    have := Nat.ofDigits_digits 10 n
    rw [hz] at this
    simp [Nat.ofDigits] at this
    exact hn this.symm
  · simp only [if_neg hn, if_neg hm] at hd
    have hmap : (natDigits n).map dtoc = (natDigits m).map dtoc :=
      List.reverse_injective hd
    have hdig : natDigits n = natDigits m :=
      map_dtoc_inj _ _ (natDigits_lt n) (natDigits_lt m) hmap
    rw [natDigits_eq, natDigits_eq] at hdig
    have h1 := Nat.ofDigits_digits 10 n
    have h2 := Nat.ofDigits_digits 10 m
    rw [hdig] at h1
    rw [← h1, h2]

theorem natStr_chars (n : Nat) : ∀ c ∈ (natStr n).data, ∃ d, d < 10 ∧ c = dtoc d := by
  intro c hc
  rw [natStr_data] at hc
  by_cases h : n = 0
  · simp [h] at hc
    exact ⟨0, by norm_num, by rw [hc]; rfl⟩
  · simp only [if_neg h, List.mem_reverse, List.mem_map] at hc
    obtain ⟨d, hd, rfl⟩ := hc
    exact ⟨d, natDigits_lt n d hd, rfl⟩

theorem itos_chars (i : Int) : ∀ c ∈ (itos i).data,
    c = '-' ∨ ∃ d, d < 10 ∧ c = dtoc d := by
  intro c hc
  by_cases h : i < 0
  · simp only [itos, if_pos h, String.data_append] at hc
    rcases List.mem_append.mp hc with h1 | h2
    · left
      simpa using h1
    · exact Or.inr (natStr_chars _ c h2)
  · simp only [itos, if_neg h] at hc
    exact Or.inr (natStr_chars _ c hc)

theorem itos_sep_free (i : Int) : ∀ c ∈ (itos i).data, c ≠ '.' ∧ c ≠ '/' := by
  intro c hc
  rcases itos_chars i c hc with h | ⟨d, hd, rfl⟩
  · rw [h]; exact ⟨by decide, by decide⟩
  · exact ⟨(dtoc_sep_free d hd).1, (dtoc_sep_free d hd).2.1⟩

theorem itos_inj {i j : Int} (h : itos i = itos j) : i = j := by
  by_cases hi : i < 0 <;> by_cases hj : j < 0
  · simp only [itos, if_pos hi, if_pos hj] at h
    have hd := congrArg String.data h
    simp only [String.data_append] at hd
    have : (natStr i.natAbs).data = (natStr j.natAbs).data := by
      simpa using hd
    have := natStr_inj (String.ext this)
    omega
  · exfalso
    simp only [itos, if_pos hi, if_neg hj] at h
    have hd := congrArg String.data h
    simp only [String.data_append] at hd
    have hm : ('-' : Char) ∈ (natStr j.natAbs).data := by
      rw [← hd]
      exact List.mem_append.mpr (Or.inl (List.mem_singleton.mpr rfl))
    obtain ⟨d, hdlt, hdc⟩ := natStr_chars j.natAbs '-' hm
    exact (dtoc_sep_free d hdlt).2.2 hdc.symm
  · exfalso
    simp only [itos, if_neg hi, if_pos hj] at h
    have hd := congrArg String.data h
    simp only [String.data_append] at hd
    have hm : ('-' : Char) ∈ (natStr i.natAbs).data := by
      rw [hd]
      exact List.mem_append.mpr (Or.inl (List.mem_singleton.mpr rfl))
    obtain ⟨d, hdlt, hdc⟩ := natStr_chars i.natAbs '-' hm
    exact (dtoc_sep_free d hdlt).2.2 hdc.symm
  · simp only [itos, if_neg hi, if_neg hj] at h
    have := natStr_inj h
    omega

/-! ### Unique tokenisation of separator-joined components -/

theorem sep_split {sep : Char} : ∀ (a b x y : List Char), sep ∉ a → sep ∉ b →
    a ++ sep :: x = b ++ sep :: y → a = b ∧ x = y := by
  intro a
  induction a with
  | nil =>
    intro b x y _ hb h
    cases b with
    | nil => simpa using h
    | cons c bs =>
      exfalso
      simp only [List.nil_append, List.cons_append, List.cons.injEq] at h
      exact hb (h.1 ▸ List.mem_cons_self c bs)
  | cons c as ih =>
    intro b x y ha hb h
    cases b with
    | nil =>
      exfalso
      simp only [List.cons_append, List.nil_append, List.cons.injEq] at h
      exact ha (h.1 ▸ List.mem_cons_self c as)
    | cons d bs =>
      simp only [List.cons_append, List.cons.injEq] at h
      have hr := ih bs x y (fun hm => ha (List.mem_cons_of_mem c hm))
        (fun hm => hb (List.mem_cons_of_mem d hm)) h.2
      exact ⟨by rw [h.1, hr.1], hr.2⟩

/-! ### Injectivity of canonical chunk paths -/

theorem canonPath_data (root : String) (q : tripoint) : (canonPath root q).data =
    root.data ++ '/' :: 'm' :: 'a' :: 'p' :: 's' :: '/' ::
      ((itos (omt_to_seg_copy q).x).data ++ '.' ::
        ((itos (omt_to_seg_copy q).y).data ++ '.' ::
          ((itos (omt_to_seg_copy q).z).data ++ '/' ::
            ((itos q.x).data ++ '.' :: ((itos q.y).data ++ '.' ::
              ((itos q.z).data ++ '.' :: ['m', 'a', 'p'])))))) := by
  have h1 : ("/maps/").data = ['/', 'm', 'a', 'p', 's', '/'] := rfl
  have h2 : (".").data = ['.'] := rfl
  have h3 : ("/").data = ['/'] := rfl
  have h4 : (".map").data = ['.', 'm', 'a', 'p'] := rfl
  simp [canonPath, find_quad_path, find_dirname, String.data_append, h1, h2, h3, h4]

theorem canonPath_inj (root : String) {q q' : tripoint}
    (h : canonPath root q = canonPath root q') : q = q' := by
  have hd := congrArg String.data h
  rw [canonPath_data, canonPath_data] at hd
  have hd2 := List.append_cancel_left hd
  simp only [List.cons.injEq, true_and] at hd2
  have s1 := sep_split _ _ _ _
    (fun hm => ((itos_sep_free _ _ hm).1) rfl)
    (fun hm => ((itos_sep_free _ _ hm).1) rfl) hd2
  have s2 := sep_split _ _ _ _
    (fun hm => ((itos_sep_free _ _ hm).1) rfl)
    (fun hm => ((itos_sep_free _ _ hm).1) rfl) s1.2
  have s3 := sep_split _ _ _ _
    (fun hm => ((itos_sep_free _ _ hm).2) rfl)
    (fun hm => ((itos_sep_free _ _ hm).2) rfl) s2.2
  have s4 := sep_split _ _ _ _
    (fun hm => ((itos_sep_free _ _ hm).1) rfl)
    (fun hm => ((itos_sep_free _ _ hm).1) rfl) s3.2
  have s5 := sep_split _ _ _ _
    (fun hm => ((itos_sep_free _ _ hm).1) rfl)
    (fun hm => ((itos_sep_free _ _ hm).1) rfl) s4.2
  have s6 := sep_split _ _ _ _
    (fun hm => ((itos_sep_free _ _ hm).1) rfl)
    (fun hm => ((itos_sep_free _ _ hm).1) rfl) s5.2
  have hx : q.x = q'.x := itos_inj (String.ext s4.1)
  have hy : q.y = q'.y := itos_inj (String.ext s5.1)
  have hz : q.z = q'.z := itos_inj (String.ext s6.1)
  cases q; cases q'
  simp only at hx hy hz
  rw [hx, hy, hz]

/-! ### Read-path lemmas -/

theorem deserialize_preserves_binding (ch : Chunk) (b : mapbuffer)
    (log : List String) (p : tripoint) (v : Option submap)
    (h : alookup b.submaps p = some v) :
    alookup (mapbuffer.deserialize ch b log).2.1.submaps p = some v := by
  induction ch generalizing b log with
  | nil => simpa [mapbuffer.deserialize] using h
  | cons r rest ih =>
    cases hr : readMembers r ⟨none, ⟨0, 0, 0⟩, 0, log⟩ with
    | done st =>
      by_cases hp : (alookup b.submaps st.submap_coordinates).isSome
      · simpa [mapbuffer.deserialize, hr, mapbuffer.add_submap_ptr,
          mapbuffer.add_submap, hp] using ih _ _ h
      · simpa [mapbuffer.deserialize, hr, mapbuffer.add_submap_ptr,
          mapbuffer.add_submap, hp] using
          ih (⟨b.submaps ++ [(st.submap_coordinates, st.sm)]⟩ : mapbuffer) _
            (alookup_append_of_some _ h)
    | jsonFail l msg => simpa [mapbuffer.deserialize, hr] using h
    | crashed l => simpa [mapbuffer.deserialize, hr] using h

/-! ### Claim theorems: insertion, duplicate records, malformed records,
lookup -/

/-- C2: after a successful `insert(c, t1)`, a second `insert(c, t2)` returns
false, does not change the store, leaves `get(c)` returning `t1`, and does not
release the caller's owning handle of `t2`. -/
theorem insert_at_most_one_resident (b : mapbuffer) (p : tripoint)
    (t1 t2 : submap) (h : alookup b.submaps p = none) :
    (b.add_submap_ptr p (some t1)).result = true ∧
    ((b.add_submap_ptr p (some t1)).buf.add_submap_ptr p (some t2)).result = false ∧
    ((b.add_submap_ptr p (some t1)).buf.add_submap_ptr p (some t2)).released = false ∧
    ((b.add_submap_ptr p (some t1)).buf.add_submap_ptr p (some t2)).buf =
      (b.add_submap_ptr p (some t1)).buf ∧
    alookup ((b.add_submap_ptr p (some t1)).buf.add_submap_ptr p
      (some t2)).buf.submaps p = some (some t1) ∧
    ∀ w log,
      ((b.add_submap_ptr p (some t1)).buf.add_submap_ptr p
        (some t2)).buf.lookup_submap w log p =
      CallResult.ret (some t1)
        ((b.add_submap_ptr p (some t1)).buf.add_submap_ptr p (some t2)).buf log := by
  have h1 : b.add_submap_ptr p (some t1) =
      ⟨⟨b.submaps ++ [(p, some t1)]⟩, true, true⟩ := by
    simp [mapbuffer.add_submap_ptr, mapbuffer.add_submap, h]
  have hl : alookup (b.submaps ++ [(p, some t1)]) p = some (some t1) := by
    rw [alookup_append_of_none _ h]; simp
  have h2 : (⟨b.submaps ++ [(p, some t1)]⟩ : mapbuffer).add_submap_ptr p
      (some t2) = ⟨⟨b.submaps ++ [(p, some t1)]⟩, false, false⟩ := by
    simp [mapbuffer.add_submap_ptr, mapbuffer.add_submap, hl]
  refine ⟨by simp [h1], by simp [h1, h2], by simp [h1, h2], by simp [h1, h2],
    by simp [h1, h2, hl], ?_⟩
  intro w log
  simp [h1, h2, mapbuffer.lookup_submap, hl]

/-- C5: a record whose decoded coordinate is already resident is rejected with
a logged diagnostic — the store is unchanged (in particular the previously
resident binding survives the whole load), the freshly decoded tile is
dropped, and decoding continues with the remaining records. -/
theorem duplicate_record_is_rejected_and_load_continues (mem : Record)
    (rest : Chunk) (b : mapbuffer) (log : List String) (st : RecSt)
    (v : Option submap)
    (hm : readMembers mem ⟨none, ⟨0, 0, 0⟩, 0, log⟩ = RecOut.done st)
    (hres : alookup b.submaps st.submap_coordinates = some v) :
    mapbuffer.deserialize (mem :: rest) b log =
      mapbuffer.deserialize rest b (st.log ++ [dupMsg st.submap_coordinates]) ∧
    alookup (mapbuffer.deserialize (mem :: rest) b log).2.1.submaps
      st.submap_coordinates = some v := by
  have hp : (alookup b.submaps st.submap_coordinates).isSome := by
    rw [hres]; rfl
  have heq : mapbuffer.deserialize (mem :: rest) b log =
      mapbuffer.deserialize rest b (st.log ++ [dupMsg st.submap_coordinates]) := by
    simp [mapbuffer.deserialize, hm, mapbuffer.add_submap_ptr,
      mapbuffer.add_submap, hp]
  refine ⟨heq, ?_⟩
  rw [heq]
  exact deserialize_preserves_binding _ _ _ _ _ hres

/-- C1 (code bug evidence): a chunk whose second record presents a payload
member before any coordinate member makes the read path dereference a null
tile handle — the modelled outcome is `crash`, after the diagnostic is
logged; the valid first record was resident at the crash point.  The claim
says the malformed record is abandoned and the load finishes normally. -/
theorem misordered_record_crashes_load :
    (mapbuffer.deserialize
        [[("version", JValue.jint 33), ("coordinates", JValue.jarr [1, 2, 3]),
          ("terrain", JValue.jint 7)],
         [("version", JValue.jint 33), ("terrain", JValue.jint 5)]]
        ⟨[]⟩ []).1 = LoadOutcome.crash ∧
    (mapbuffer.deserialize
        [[("version", JValue.jint 33), ("coordinates", JValue.jarr [1, 2, 3]),
          ("terrain", JValue.jint 7)],
         [("version", JValue.jint 33), ("terrain", JValue.jint 5)]]
        ⟨[]⟩ []).2.2 = [coordNotFirstMsg] ∧
    (alookup (mapbuffer.deserialize
        [[("version", JValue.jint 33), ("coordinates", JValue.jarr [1, 2, 3]),
          ("terrain", JValue.jint 7)],
         [("version", JValue.jint 33), ("terrain", JValue.jint 5)]]
        ⟨[]⟩ []).2.1.submaps ⟨1, 2, 3⟩).isSome = true := by
  decide

/-- C4: lookup behaviour — a resident binding is returned as-is (independently
of the filesystem); a miss with no chunk file at either the canonical or the
legacy path returns absence unchanged; a miss whose chunk file decodes
successfully re-checks residency once and returns the result (logging a
diagnostic when the expected coordinate is still absent); a miss whose chunk
file fails to decode logs the error and returns absence instead of
propagating. -/
theorem lookup_submap_spec (b : mapbuffer) (w : World) (log : List String)
    (p : tripoint) :
    (∀ v, alookup b.submaps p = some v →
      b.lookup_submap w log p = CallResult.ret v b log) ∧
    (alookup b.submaps p = none →
      alookup w.fs (canonPath w.world_root (sm_to_omt_copy p)) = none →
      alookup w.fs (legacy_quad_path w.locale
        (find_dirname w.world_root (sm_to_omt_copy p)) (sm_to_omt_copy p)) = none →
      b.lookup_submap w log p = CallResult.ret none b log) ∧
    (∀ ch b' log', alookup b.submaps p = none →
      alookup w.fs (canonPath w.world_root (sm_to_omt_copy p)) = some ch →
      mapbuffer.deserialize ch b log = (LoadOutcome.ok, b', log') →
      b.lookup_submap w log p =
        match alookup b'.submaps p with
        | none => CallResult.ret none b'
            (log' ++ [missingExpectedMsg (canonPath w.world_root (sm_to_omt_copy p)) p])
        | some v => CallResult.ret v b' log') ∧
    (∀ ch b' log' msg, alookup b.submaps p = none →
      alookup w.fs (canonPath w.world_root (sm_to_omt_copy p)) = some ch →
      mapbuffer.deserialize ch b log = (LoadOutcome.jsonErr msg, b', log') →
      b.lookup_submap w log p = CallResult.ret none b'
        (log' ++ [readFailMsg (canonPath w.world_root (sm_to_omt_copy p)) msg])) := by
  refine ⟨?_, ?_, ?_, ?_⟩
  · intro v h
    simp [mapbuffer.lookup_submap, h]
  · intro h hc hl
    simp only [canonPath] at hc
    simp [mapbuffer.lookup_submap, h, mapbuffer.unserialize_submaps, file_exist,
      hc, hl]
  · intro ch b' log' h hc hd
    simp only [canonPath] at hc ⊢
    have hex : (alookup w.fs (find_quad_path
        (find_dirname w.world_root (sm_to_omt_copy p)) (sm_to_omt_copy p))).isSome := by
      rw [hc]; rfl
    simp only [mapbuffer.lookup_submap, h, mapbuffer.unserialize_submaps,
      file_exist, hex, if_true, hc, hd]
    cases hres : alookup b'.submaps p <;> simp [hc, hd, hres]
  · intro ch b' log' msg h hc hd
    simp only [canonPath] at hc ⊢
    have hex : (alookup w.fs (find_quad_path
        (find_dirname w.world_root (sm_to_omt_copy p)) (sm_to_omt_copy p))).isSome := by
      rw [hc]; rfl
    simp [mapbuffer.lookup_submap, h, mapbuffer.unserialize_submaps, file_exist,
      hex, hc, hd]

/-! ### Quad membership arithmetic -/

theorem sm_to_omt_of_mem {q m : tripoint} (h : m ∈ submap_addrs_of q) :
    sm_to_omt_copy m = q := by
  have h2 : ∀ a : Int, (2 * a + 0).fdiv 2 = a := fun a => by
    rw [Int.fdiv_eq_ediv _ (by norm_num)]; omega
  have h3 : ∀ a : Int, (2 * a + 1).fdiv 2 = a := fun a => by
    rw [Int.fdiv_eq_ediv _ (by norm_num)]; omega
  cases q with
  | mk qx qy qz =>
    simp only [submap_addrs_of, quad_offsets, omt_to_sm_copy, List.map_cons,
      List.map_nil, List.mem_cons, List.not_mem_nil, or_false] at h
    rcases h with rfl | rfl | rfl | rfl <;>
      simp [sm_to_omt_copy, h2, h3]

theorem mem_submap_addrs (m : tripoint) :
    m ∈ submap_addrs_of (sm_to_omt_copy m) := by
  cases m with
  | mk x y z =>
    have hx : 2 * (x.fdiv 2) = x ∨ 2 * (x.fdiv 2) + 1 = x := by
      rw [Int.fdiv_eq_ediv _ (by norm_num)]; omega
    have hy : 2 * (y.fdiv 2) = y ∨ 2 * (y.fdiv 2) + 1 = y := by
      rw [Int.fdiv_eq_ediv _ (by norm_num)]; omega
    simp only [sm_to_omt_copy, submap_addrs_of, quad_offsets, omt_to_sm_copy,
      List.map_cons, List.map_nil, List.mem_cons, List.not_mem_nil, or_false,
      tripoint.mk.injEq, and_true]
    revert hx hy
    generalize x.fdiv 2 = fx
    generalize y.fdiv 2 = fy
    intro hx hy
    omega

theorem submap_addrs_nodup (q : tripoint) : (submap_addrs_of q).Nodup := by
  cases q with
  | mk qx qy qz =>
    simp [submap_addrs_of, quad_offsets, omt_to_sm_copy, tripoint.mk.injEq]

theorem members_disjoint {q q' : tripoint} (hne : q ≠ q') {m : tripoint}
    (h : m ∈ submap_addrs_of q) : m ∉ submap_addrs_of q' := fun h' =>
  hne ((sm_to_omt_of_mem h).symm.trans (sm_to_omt_of_mem h'))

/-! ### Subscript and uniformity-scan lemmas -/

theorem subscript_ne (b : mapbuffer) (addr p : tripoint) (h : p ≠ addr) :
    alookup (b.subscript addr).1.submaps p = alookup b.submaps p := by
  unfold mapbuffer.subscript
  cases h0 : alookup b.submaps addr with
  | some v => simp
  | none =>
    simp only
    cases h1 : alookup b.submaps p with
    | some v => rw [alookup_append_of_some _ h1]
    | none =>
      rw [alookup_append_of_none _ h1]
      simp only [alookup_cons, alookup_nil]
      rw [if_neg fun hh : addr = p => h hh.symm]

theorem subscript_presOrNull (b : mapbuffer) (addr p : tripoint) :
    presOrNull b (b.subscript addr).1 p := by
  by_cases hp : p = addr
  · subst hp
    unfold mapbuffer.subscript
    cases h0 : alookup b.submaps p with
    | some v => left; simp
    | none =>
      right
      refine ⟨h0, ?_⟩
      simp only
      rw [alookup_append_of_none _ h0]
      simp
  · left; exact subscript_ne b addr p hp

theorem subscript_isSome (b : mapbuffer) (addr : tripoint) :
    (alookup (b.subscript addr).1.submaps addr).isSome := by
  unfold mapbuffer.subscript
  cases h0 : alookup b.submaps addr with
  | some v => simp [h0]
  | none =>
    simp only
    rw [alookup_append_of_none _ h0]
    simp

theorem presOrNull_trans {a b c : mapbuffer} {p : tripoint}
    (h1 : presOrNull a b p) (h2 : presOrNull b c p) : presOrNull a c p := by
  rcases h1 with h1 | ⟨h1a, h1b⟩ <;> rcases h2 with h2 | ⟨h2a, h2b⟩
  · left; rw [h2, h1]
  · right
    rw [h1] at h2a
    exact ⟨h2a, h2b⟩
  · right
    rw [h2, h1b]
    exact ⟨h1a, rfl⟩
  · rw [h1b] at h2a; cases h2a

theorem presOrNull_residentVal {b b' : mapbuffer} {p : tripoint}
    (h : presOrNull b b' p) : residentVal b' p = residentVal b p := by
  rcases h with h | ⟨h1, h2⟩
  · simp [residentVal, h]
  · simp [residentVal, h1, h2]

theorem presOrNull_isSome {b b' : mapbuffer} {p : tripoint}
    (h : presOrNull b b' p) (hs : (alookup b.submaps p).isSome) :
    (alookup b'.submaps p).isSome := by
  rcases h with h | ⟨h1, h2⟩
  · rw [h]; exact hs
  · rw [h2]; rfl

theorem nullOrUniform_eq (b : mapbuffer) (p : tripoint) :
    nullOrUniform b p =
      match residentVal b p with
      | some s => s.is_uniform
      | none => true := by
  unfold nullOrUniform residentVal
  cases h : alookup b.submaps p with
  | none => rfl
  | some v => cases v <;> rfl

theorem isResident_eq (b : mapbuffer) (p : tripoint) :
    isResident b p = (residentVal b p).isSome := by
  unfold isResident residentVal
  cases h : alookup b.submaps p with
  | none => rfl
  | some v => cases v <;> rfl

theorem residentVal_congr_nullOrUniform {b b' : mapbuffer} {p : tripoint}
    (h : residentVal b' p = residentVal b p) :
    nullOrUniform b' p = nullOrUniform b p := by
  rw [nullOrUniform_eq, nullOrUniform_eq, h]

theorem residentVal_congr_isResident {b b' : mapbuffer} {p : tripoint}
    (h : residentVal b' p = residentVal b p) :
    isResident b' p = isResident b p := by
  rw [isResident_eq, isResident_eq, h]

theorem all_congr {α : Type} (l : List α) (f g : α → Bool)
    (h : ∀ x ∈ l, f x = g x) : l.all f = l.all g := by
  induction l with
  | nil => rfl
  | cons a t ih =>
    simp only [List.all_cons]
    rw [h a (List.mem_cons_self a t),
      ih fun x hx => h x (List.mem_cons_of_mem a hx)]

theorem scan_fst_ne (l : List tripoint) (b : mapbuffer) (flag : Bool)
    (p : tripoint) (hp : p ∉ l) :
    alookup (l.foldl scanStep (b, flag)).1.submaps p = alookup b.submaps p := by
  induction l generalizing b flag with
  | nil => rfl
  | cons m rest ih =>
    rw [List.foldl_cons]
    have hpm : p ≠ m := fun h => hp (h ▸ List.mem_cons_self m rest)
    have hpr : p ∉ rest := fun h => hp (List.mem_cons_of_mem m h)
    calc alookup (rest.foldl scanStep (scanStep (b, flag) m)).1.submaps p
        = alookup (scanStep (b, flag) m).1.submaps p := ih _ _ hpr
      _ = alookup b.submaps p := subscript_ne b m p hpm

theorem scan_presOrNull (l : List tripoint) (b : mapbuffer) (flag : Bool)
    (p : tripoint) : presOrNull b (l.foldl scanStep (b, flag)).1 p := by
  induction l generalizing b flag with
  | nil => left; rfl
  | cons m rest ih =>
    rw [List.foldl_cons]
    exact presOrNull_trans (subscript_presOrNull b m p) (ih _ _)

theorem scan_isSome (l : List tripoint) (b : mapbuffer) (flag : Bool) :
    ∀ m ∈ l, (alookup (l.foldl scanStep (b, flag)).1.submaps m).isSome := by
  induction l generalizing b flag with
  | nil => intro m hm; cases hm
  | cons a rest ih =>
    intro m hm
    rw [List.foldl_cons]
    rcases List.mem_cons.mp hm with rfl | hm'
    · have h1 : (alookup (b.subscript m).1.submaps m).isSome :=
        subscript_isSome b m
      have h2 : presOrNull (b.subscript m).1
          (rest.foldl scanStep (scanStep (b, flag) m)).1 m := by
        have := scan_presOrNull rest (scanStep (b, flag) m).1
          (scanStep (b, flag) m).2 m
        exact this
      exact presOrNull_isSome h2 h1
    · exact ih _ _ m hm'

theorem scanStep_snd (b : mapbuffer) (flag : Bool) (m : tripoint) :
    (scanStep (b, flag) m).2 = (flag && nullOrUniform b m) := by
  unfold scanStep mapbuffer.subscript nullOrUniform
  cases h : alookup b.submaps m with
  | none => simp
  | some v =>
    cases v with
    | none => simp
    | some s => cases hu : s.is_uniform <;> simp [hu]

theorem scan_flag (l : List tripoint) : ∀ (b : mapbuffer) (flag : Bool),
    (l.foldl scanStep (b, flag)).2 = (flag && l.all (nullOrUniform b)) := by
  induction l with
  | nil => intro b flag; simp
  | cons m rest ih =>
    intro b flag
    rw [List.foldl_cons]
    have hstep : scanStep (b, flag) m =
        ((b.subscript m).1, flag && nullOrUniform b m) := by
      have := scanStep_snd b flag m
      exact Prod.ext rfl this
    rw [hstep, ih]
    have hcongr : rest.all (nullOrUniform (b.subscript m).1) =
        rest.all (nullOrUniform b) :=
      all_congr rest _ _ fun x _ =>
        residentVal_congr_nullOrUniform
          (presOrNull_residentVal (subscript_presOrNull b m x))
    rw [hcongr]
    simp [List.all_cons, Bool.and_assoc]

/-! ### Chunk write path characterisation -/

theorem encodeArm_eq (b : mapbuffer) (m : tripoint) :
    (match alookup b.submaps m with
      | some (some sm) => some (encodeRecord m sm)
      | _ => none) = (residentVal b m).map (encodeRecord m) := by
  unfold residentVal
  cases h : alookup b.submaps m with
  | none => rfl
  | some v => cases v <;> rfl

theorem encodeQuad_eq (b : mapbuffer) (q : tripoint) :
    encodeQuad b q =
      (submap_addrs_of q).filterMap fun m =>
        (residentVal b m).map (encodeRecord m) :=
  List.filterMap_congr fun m _ => encodeArm_eq b m

theorem writeFold (b : mapbuffer) (d : Bool) (l : List tripoint) :
    ∀ (c0 : Chunk) (t0 : List tripoint),
    l.foldl (writeStep b d) (c0, t0) =
      (c0 ++ l.filterMap fun m => (residentVal b m).map (encodeRecord m),
       t0 ++ if d then l.filter (isResident b) else []) := by
  induction l with
  | nil => intro c0 t0; simp
  | cons m rest ih =>
    intro c0 t0
    rw [List.foldl_cons]
    cases h : alookup b.submaps m with
    | none =>
      have hw : writeStep b d (c0, t0) m = (c0, t0) := by simp [writeStep, h]
      rw [hw, ih]
      simp [residentVal, isResident, h]
    | some v =>
      cases v with
      | none =>
        have hw : writeStep b d (c0, t0) m = (c0, t0) := by simp [writeStep, h]
        rw [hw, ih]
        simp [residentVal, isResident, h]
      | some sm =>
        have hw : writeStep b d (c0, t0) m =
            (c0 ++ [encodeRecord m sm], if d then t0 ++ [m] else t0) := by
          simp [writeStep, h]
        rw [hw, ih]
        cases d <;>
          simp [residentVal, isResident, h, List.filter_cons]

theorem save_quad_buf (b : mapbuffer) (ctx : GameCtx) (d f : String)
    (q : tripoint) (td : List tripoint) (del : Bool) :
    (b.save_quad ctx d f q td del).buf =
      ((submap_addrs_of q).foldl scanStep (b, true)).1 := by
  unfold mapbuffer.save_quad
  by_cases h : ((submap_addrs_of q).foldl scanStep (b, true)).2 <;>
    by_cases h2 : ctx.disable_mapgen <;> cases del <;> simp [h, h2]

theorem scan_flag_top (b : mapbuffer) (q : tripoint) :
    ((submap_addrs_of q).foldl scanStep (b, true)).2 = allUniformBool b q := by
  rw [scan_flag]
  simp [allUniformBool]

theorem residentVal_scan (b : mapbuffer) (q : tripoint) (m : tripoint) :
    residentVal ((submap_addrs_of q).foldl scanStep (b, true)).1 m =
      residentVal b m :=
  presOrNull_residentVal (scan_presOrNull _ _ _ _)

theorem save_quad_write (b : mapbuffer) (ctx : GameCtx) (d f : String)
    (q : tripoint) (td : List tripoint) (del : Bool) :
    (b.save_quad ctx d f q td del).write =
      if allUniformBool b q then none
      else if ctx.disable_mapgen then none
      else some (f, encodeQuad b q) := by
  unfold mapbuffer.save_quad
  dsimp only
  rw [scan_flag_top]
  by_cases h : allUniformBool b q
  · cases del <;> simp [h]
  · by_cases h2 : ctx.disable_mapgen
    · simp [h, h2]
    · simp only [h, h2, Bool.false_eq_true, if_false, if_true]
      rw [writeFold]
      simp only [List.nil_append, if_true]
      rw [encodeQuad_eq]
      have : ((submap_addrs_of q).filterMap fun m =>
          (residentVal ((submap_addrs_of q).foldl scanStep (b, true)).1 m).map
            (encodeRecord m)) =
          (submap_addrs_of q).filterMap fun m =>
            (residentVal b m).map (encodeRecord m) :=
        List.filterMap_congr fun m _ => by rw [residentVal_scan]
      rw [this]

theorem save_quad_dir (b : mapbuffer) (ctx : GameCtx) (d f : String)
    (q : tripoint) (td : List tripoint) (del : Bool) :
    (b.save_quad ctx d f q td del).dir =
      if allUniformBool b q then none
      else if ctx.disable_mapgen then none
      else some d := by
  unfold mapbuffer.save_quad
  dsimp only
  rw [scan_flag_top]
  by_cases h : allUniformBool b q
  · cases del <;> simp [h]
  · by_cases h2 : ctx.disable_mapgen <;> simp [h, h2]

theorem save_quad_to_delete (b : mapbuffer) (ctx : GameCtx) (d f : String)
    (q : tripoint) (td : List tripoint) (del : Bool) :
    (b.save_quad ctx d f q td del).to_delete =
      td ++ (if allUniformBool b q then (if del then residentMembers b q else [])
             else if ctx.disable_mapgen then []
             else if del then residentMembers b q else []) := by
  unfold mapbuffer.save_quad
  dsimp only
  rw [scan_flag_top]
  have hres : ∀ m ∈ submap_addrs_of q,
      isResident ((submap_addrs_of q).foldl scanStep (b, true)).1 m =
        isResident b m := fun m _ =>
    residentVal_congr_isResident (residentVal_scan b q m)
  by_cases h : allUniformBool b q
  · cases del with
    | false => simp [h]
    | true =>
      simp only [h, if_true]
      have : ((submap_addrs_of q).filter fun addr =>
          match alookup ((submap_addrs_of q).foldl scanStep (b, true)).1.submaps addr with
          | some (some _) => true
          | _ => false) = residentMembers b q := by
        show ((submap_addrs_of q).filter
          (isResident ((submap_addrs_of q).foldl scanStep (b, true)).1)) = _
        rw [List.filter_congr hres]
        rfl
      rw [this]
  · by_cases h2 : ctx.disable_mapgen
    · simp [h, h2]
    · simp only [h, h2, Bool.false_eq_true, if_false, if_true]
      rw [writeFold]
      cases del with
      | false => simp
      | true =>
        simp only [List.nil_append, if_true]
        rw [List.filter_congr hres]
        rfl

/-! ### Flush iteration invariant -/

theorem remove_alookup (B : mapbuffer) (log : List String) (a p : tripoint) :
    alookup (B.remove_submap log a).1.submaps p =
      if p = a then none else alookup B.submaps p := by
  unfold mapbuffer.remove_submap
  cases h : alookup B.submaps a with
  | none =>
    by_cases hp : p = a
    · subst hp; simp [h]
    · simp [hp]
  | some v =>
    by_cases hp : p = a
    · subst hp; simp [alookup_aerase_self]
    · simp [hp, alookup_aerase_ne _ hp]

theorem removeDelFold (todel : List tripoint) : ∀ (B : mapbuffer)
    (log : List String) (p : tripoint),
    alookup ((todel.foldl (fun acc addr => acc.1.remove_submap acc.2 addr)
        (B, log)).1).submaps p =
      if p ∈ todel then none else alookup B.submaps p := by
  induction todel with
  | nil => intro B log p; simp
  | cons a rest ih =>
    intro B log p
    rw [List.foldl_cons, ih]
    by_cases hp : p ∈ rest
    · simp [hp, List.mem_cons]
    · by_cases hpa : p = a
      · subst hpa
        simp [hp, remove_alookup, List.mem_cons]
      · simp [hp, hpa, remove_alookup, List.mem_cons]

theorem saveInv_init (b : mapbuffer) (ctx : GameCtx) (root : String)
    (del : Bool) :
    SaveInv b ctx root del ⟨b, [], [], [], [root ++ "/maps"], []⟩ := by
  refine ⟨rfl, List.nodup_nil, fun p => Or.inl rfl, ?_, fun p _ => rfl, ?_, ?_,
    ?_, ?_⟩ <;> intro x hx <;> cases hx

theorem saveStep_inv (b : mapbuffer) (ctx : GameCtx) (root : String)
    (del : Bool) (st : SaveSt) (k : tripoint)
    (h : SaveInv b ctx root del st) :
    SaveInv b ctx root del (saveStep ctx root del st k) ∧
    sm_to_omt_copy k ∈ (saveStep ctx root del st k).saved_submaps ∧
    (∀ q ∈ st.saved_submaps, q ∈ (saveStep ctx root del st k).saved_submaps) := by
  by_cases hin : st.saved_submaps.contains (sm_to_omt_copy k)
  · have hmem : sm_to_omt_copy k ∈ st.saved_submaps := by simpa using hin
    have hstep : saveStep ctx root del st k = st := by
      unfold saveStep
      dsimp only
      rw [if_pos hin]
    rw [hstep]
    exact ⟨h, hmem, fun q hq => hq⟩
  · have hnin : sm_to_omt_copy k ∉ st.saved_submaps := by simpa using hin
    have hstep : saveStep ctx root del st k =
        ⟨(st.buf.save_quad ctx (find_dirname root (sm_to_omt_copy k))
            (find_quad_path (find_dirname root (sm_to_omt_copy k)) (sm_to_omt_copy k))
            (sm_to_omt_copy k) st.submaps_to_delete
            (delete_cond ctx del (sm_to_omt_copy k))).buf,
         st.saved_submaps ++ [sm_to_omt_copy k],
         (st.buf.save_quad ctx (find_dirname root (sm_to_omt_copy k))
            (find_quad_path (find_dirname root (sm_to_omt_copy k)) (sm_to_omt_copy k))
            (sm_to_omt_copy k) st.submaps_to_delete
            (delete_cond ctx del (sm_to_omt_copy k))).to_delete,
         st.writes ++ (st.buf.save_quad ctx (find_dirname root (sm_to_omt_copy k))
            (find_quad_path (find_dirname root (sm_to_omt_copy k)) (sm_to_omt_copy k))
            (sm_to_omt_copy k) st.submaps_to_delete
            (delete_cond ctx del (sm_to_omt_copy k))).write.toList,
         st.dirs ++ (st.buf.save_quad ctx (find_dirname root (sm_to_omt_copy k))
            (find_quad_path (find_dirname root (sm_to_omt_copy k)) (sm_to_omt_copy k))
            (sm_to_omt_copy k) st.submaps_to_delete
            (delete_cond ctx del (sm_to_omt_copy k))).dir.toList,
         st.quads ++ [sm_to_omt_copy k]⟩ := by
      unfold saveStep
      dsimp only
      rw [if_neg hin]
    have hmemb : ∀ m ∈ submap_addrs_of (sm_to_omt_copy k),
        alookup st.buf.submaps m = alookup b.submaps m := fun m hm =>
      h.buf_frame m (by rw [sm_to_omt_of_mem hm]; exact hnin)
    have hU : allUniformBool st.buf (sm_to_omt_copy k) =
        allUniformBool b (sm_to_omt_copy k) := by
      refine all_congr _ _ _ fun m hm => ?_
      unfold nullOrUniform
      rw [hmemb m hm]
    have hR : residentMembers st.buf (sm_to_omt_copy k) =
        residentMembers b (sm_to_omt_copy k) := by
      refine List.filter_congr fun m hm => ?_
      unfold isResident
      rw [hmemb m hm]
    have hE : encodeQuad st.buf (sm_to_omt_copy k) =
        encodeQuad b (sm_to_omt_copy k) := by
      refine List.filterMap_congr fun m hm => ?_
      rw [hmemb m hm]
    rw [hstep]
    refine ⟨⟨?_, ?_, ?_, ?_, ?_, ?_, ?_, ?_, ?_⟩, ?_, ?_⟩
    · -- quads_eq
      dsimp only
      rw [h.quads_eq]
    · -- nodup
      dsimp only
      simp [List.nodup_append, h.nodup, hnin]
    · -- buf_pres
      intro p
      dsimp only
      rw [save_quad_buf]
      exact presOrNull_trans (h.buf_pres p) (scan_presOrNull _ _ _ p)
    · -- buf_some
      intro p hp
      dsimp only at hp ⊢
      rw [save_quad_buf]
      rcases List.mem_append.mp hp with hps | hpo
      · exact presOrNull_isSome (scan_presOrNull _ _ _ p) (h.buf_some p hps)
      · have hpe : sm_to_omt_copy p = sm_to_omt_copy k := by simpa using hpo
        have hpm : p ∈ submap_addrs_of (sm_to_omt_copy k) := hpe ▸ mem_submap_addrs p
        exact scan_isSome _ _ _ p hpm
    · -- buf_frame
      intro p hp
      dsimp only at hp ⊢
      rw [save_quad_buf]
      have hps : sm_to_omt_copy p ∉ st.saved_submaps :=
        fun hh => hp (List.mem_append.mpr (Or.inl hh))
      have hpo : sm_to_omt_copy p ≠ sm_to_omt_copy k :=
        fun hh => hp (List.mem_append.mpr (Or.inr (by simp [hh])))
      have hnm : p ∉ submap_addrs_of (sm_to_omt_copy k) :=
        fun hm => hpo (sm_to_omt_of_mem hm)
      rw [scan_fst_ne _ _ _ _ hnm]
      exact h.buf_frame p hps
    · -- writes_shape
      intro e he
      dsimp only at he ⊢
      rcases List.mem_append.mp he with hold | hnew
      · obtain ⟨q, hq1, hq2, hq3, hq4, hq5⟩ := h.writes_shape e hold
        exact ⟨q, List.mem_append.mpr (Or.inl hq1), hq2, hq3, hq4, hq5⟩
      · rw [save_quad_write, hU, hE] at hnew
        by_cases h1 : allUniformBool b (sm_to_omt_copy k)
        · rw [if_pos h1] at hnew; cases hnew
        · rw [if_neg h1] at hnew
          by_cases h2 : ctx.disable_mapgen
          · rw [if_pos h2] at hnew; cases hnew
          · rw [if_neg h2] at hnew
            have he2 : e = (find_quad_path
                (find_dirname root (sm_to_omt_copy k)) (sm_to_omt_copy k),
                encodeQuad b (sm_to_omt_copy k)) := by simpa using hnew
            refine ⟨sm_to_omt_copy k, List.mem_append.mpr (Or.inr (by simp)),
              ?_, ?_, by simpa using h1, by simpa using h2⟩
            · rw [he2]
              rfl
            · rw [he2]

    · -- writes_exist
      intro q hq hUq hD
      dsimp only at hq ⊢
      rcases List.mem_append.mp hq with hold | hnew
      · exact List.mem_append.mpr (Or.inl (h.writes_exist q hold hUq hD))
      · have hqe : q = sm_to_omt_copy k := by simpa using hnew
        subst hqe
        refine List.mem_append.mpr (Or.inr ?_)
        rw [save_quad_write, hU, hE, if_neg (by simp [hUq]), if_neg (by simp [hD])]
        simp [canonPath]
    · -- del_resident
      intro m hm
      dsimp only at hm
      rw [save_quad_to_delete, hU, hR] at hm
      rcases List.mem_append.mp hm with hold | hnew
      · exact h.del_resident m hold
      · split_ifs at hnew with h1 h2 h3 h4
        · exact (List.mem_filter.mp hnew).2
        · cases hnew
        · cases hnew
        · exact (List.mem_filter.mp hnew).2
        · cases hnew
    · -- del_complete
      intro q hq hc hor m hm hres
      dsimp only at hq ⊢
      rw [save_quad_to_delete, hU, hR]
      rcases List.mem_append.mp hq with hold | hnew
      · exact List.mem_append.mpr (Or.inl (h.del_complete q hold hc hor m hm hres))
      · have hqe : q = sm_to_omt_copy k := by simpa using hnew
        subst hqe
        refine List.mem_append.mpr (Or.inr ?_)
        have hmf : m ∈ residentMembers b (sm_to_omt_copy k) :=
          List.mem_filter.mpr ⟨hm, hres⟩
        by_cases h1 : allUniformBool b (sm_to_omt_copy k)
        · rw [if_pos h1, if_pos hc]
          exact hmf
        · rcases hor with hor | hor
          · exact absurd hor (by simpa using h1)
          · rw [if_neg h1, if_neg (by simp [hor]), if_pos hc]
            exact hmf
    · -- om processed
      dsimp only
      simp
    · -- saved monotone
      intro q hq
      dsimp only
      simp [hq]

theorem saveFold_inv (b : mapbuffer) (ctx : GameCtx) (root : String)
    (del : Bool) : ∀ (ks : List tripoint) (st : SaveSt),
    SaveInv b ctx root del st →
    SaveInv b ctx root del (ks.foldl (saveStep ctx root del) st) ∧
    (∀ q ∈ st.saved_submaps,
      q ∈ (ks.foldl (saveStep ctx root del) st).saved_submaps) ∧
    (∀ k ∈ ks,
      sm_to_omt_copy k ∈ (ks.foldl (saveStep ctx root del) st).saved_submaps) := by
  intro ks
  induction ks with
  | nil => intro st h; exact ⟨h, fun q hq => hq, fun k hk => absurd hk (List.not_mem_nil k)⟩
  | cons a rest ih =>
    intro st h
    rw [List.foldl_cons]
    obtain ⟨h1, h2, h3⟩ := saveStep_inv b ctx root del st a h
    obtain ⟨g1, g2, g3⟩ := ih _ h1
    refine ⟨g1, fun q hq => g2 q (h3 q hq), ?_⟩
    intro k hk
    rcases List.mem_cons.mp hk with rfl | hk'
    · exact g2 _ h2
    · exact g3 k hk'

/-! ### Save projections and derived flush facts -/

theorem save_quads_eq (b : mapbuffer) (ctx : GameCtx) (root : String)
    (log : List String) (del : Bool) :
    (b.save ctx root log del).quads = (saveState b ctx root del).quads := rfl

theorem save_writes_eq (b : mapbuffer) (ctx : GameCtx) (root : String)
    (log : List String) (del : Bool) :
    (b.save ctx root log del).writes = (saveState b ctx root del).writes := rfl

theorem save_deleted_eq (b : mapbuffer) (ctx : GameCtx) (root : String)
    (log : List String) (del : Bool) :
    (b.save ctx root log del).deleted =
      (saveState b ctx root del).submaps_to_delete := rfl

theorem save_buf_alookup (b : mapbuffer) (ctx : GameCtx) (root : String)
    (log : List String) (del : Bool) (p : tripoint) :
    alookup (b.save ctx root log del).buf.submaps p =
      if p ∈ (saveState b ctx root del).submaps_to_delete then none
      else alookup (saveState b ctx root del).buf.submaps p :=
  removeDelFold _ _ _ _

theorem saveState_inv (b : mapbuffer) (ctx : GameCtx) (root : String)
    (del : Bool) :
    SaveInv b ctx root del (saveState b ctx root del) ∧
    ∀ k ∈ b.submaps.map Prod.fst,
      sm_to_omt_copy k ∈ (saveState b ctx root del).saved_submaps := by
  obtain ⟨h1, _, h3⟩ := saveFold_inv b ctx root del (b.submaps.map Prod.fst) _
    (saveInv_init b ctx root del)
  exact ⟨h1, h3⟩

theorem alookup_isSome_mem {α β : Type} [DecidableEq α] :
    ∀ (l : List (α × β)) (k : α), (alookup l k).isSome → k ∈ l.map Prod.fst := by
  intro l
  induction l with
  | nil => intro k h; cases h
  | cons e rest ih =>
    intro k h
    by_cases he : e.1 = k
    · exact List.mem_cons.mpr (Or.inl he.symm)
    · refine List.mem_cons.mpr (Or.inr (ih k ?_))
      simpa [he] using h

theorem isResident_isSome {b : mapbuffer} {m : tripoint}
    (h : isResident b m = true) : (alookup b.submaps m).isSome := by
  unfold isResident at h
  cases h' : alookup b.submaps m with
  | none => rw [h'] at h; cases h
  | some v => rfl

theorem allUniformBool_iff (b : mapbuffer) (q : tripoint) :
    allUniformBool b q = true ↔ allUniformAt b q := by
  unfold allUniformBool allUniformAt
  rw [List.all_eq_true]
  constructor
  · intro h m hm s hs
    have := h m hm
    unfold nullOrUniform at this
    rw [hs] at this
    exact this
  · intro h m hm
    unfold nullOrUniform
    cases hs : alookup b.submaps m with
    | none => rfl
    | some v =>
      cases v with
      | none => rfl
      | some s => exact h m hm s hs

theorem flush_deletes_quad (b : mapbuffer) (ctx : GameCtx) (root : String)
    (log : List String) (del : Bool) (q : tripoint)
    (hor : allUniformBool b q = true ∨ ctx.disable_mapgen = false)
    (hc : delete_cond ctx del q = true) :
    ∀ m ∈ submap_addrs_of q, isResident b m = true →
      m ∈ (b.save ctx root log del).deleted ∧
      alookup (b.save ctx root log del).buf.submaps m = none := by
  intro m hm hres
  obtain ⟨hinv, hall⟩ := saveState_inv b ctx root del
  have hkey : m ∈ b.submaps.map Prod.fst :=
    alookup_isSome_mem _ _ (isResident_isSome hres)
  have hq : q ∈ (saveState b ctx root del).saved_submaps := by
    have := hall m hkey
    rwa [sm_to_omt_of_mem hm] at this
  have hdel : m ∈ (saveState b ctx root del).submaps_to_delete :=
    hinv.del_complete q hq hc hor m hm hres
  exact ⟨by rw [save_deleted_eq]; exact hdel,
    by rw [save_buf_alookup, if_pos hdel]⟩

/-! ### Claim theorems: flush behaviour -/

/-- C9: within one flush, the chunk write path is invoked at most once per
quad coordinate — the list of quads processed by the visited-set iteration is
duplicate-free. -/
theorem flush_processes_each_quad_once (b : mapbuffer) (ctx : GameCtx)
    (root : String) (log : List String) (del : Bool) :
    (b.save ctx root log del).quads.Nodup := by
  have h := (saveState_inv b ctx root del).1
  rw [save_quads_eq, h.quads_eq]
  exact h.nodup

/-- C3: a quad whose four member slots hold no tile or a uniform tile
produces no chunk file (no write carries its canonical path), its own
write-path call creates no file and no directory, and, when deletion is
requested for it, every resident member is queued and is no longer resident
after the flush. -/
theorem uniform_quad_elided (b : mapbuffer) (ctx : GameCtx) (root : String)
    (log : List String) (del : Bool) (q : tripoint) (hU : allUniformAt b q) :
    (∀ e ∈ (b.save ctx root log del).writes, e.1 ≠ canonPath root q) ∧
    (∀ dirname filename td d,
      (b.save_quad ctx dirname filename q td d).write = none ∧
      (b.save_quad ctx dirname filename q td d).dir = none ∧
      (d = true → ∀ m ∈ submap_addrs_of q, isResident b m = true →
        m ∈ (b.save_quad ctx dirname filename q td d).to_delete)) ∧
    (delete_cond ctx del q = true →
      ∀ m ∈ submap_addrs_of q, isResident b m = true →
        m ∈ (b.save ctx root log del).deleted ∧
        alookup (b.save ctx root log del).buf.submaps m = none) := by
  have hUb : allUniformBool b q = true := (allUniformBool_iff b q).mpr hU
  refine ⟨?_, ?_, ?_⟩
  · intro e he hne
    rw [save_writes_eq] at he
    obtain ⟨q', _, hp, _, hU', _⟩ := (saveState_inv b ctx root del).1.writes_shape e he
    have : q' = q := canonPath_inj root (hp.symm.trans hne)
    rw [this, hUb] at hU'
    cases hU'
  · intro dirname filename td d
    refine ⟨?_, ?_, ?_⟩
    · rw [save_quad_write, if_pos hUb]
    · rw [save_quad_dir, if_pos hUb]
    · intro hd m hm hres
      rw [save_quad_to_delete, if_pos hUb, hd, if_pos rfl]
      exact List.mem_append.mpr (Or.inr (List.mem_filter.mpr ⟨hm, hres⟩))
  · intro hc
    exact flush_deletes_quad b ctx root log del q (Or.inl hUb) hc

/-- Witness for C3 at a concrete fully-uniform quad with one resident uniform
member. -/
theorem uniform_quad_elided_witness :
    ⟨0, 0, 0⟩ ∈ (mapbuffer.save ⟨[(⟨0, 0, 0⟩, some ⟨⟨0, 0, 0⟩, true, []⟩)]⟩
        ⟨⟨0, 0, 0⟩, true, 0, false⟩ "R" [] true).deleted ∧
    alookup (mapbuffer.save ⟨[(⟨0, 0, 0⟩, some ⟨⟨0, 0, 0⟩, true, []⟩)]⟩
        ⟨⟨0, 0, 0⟩, true, 0, false⟩ "R" [] true).buf.submaps ⟨0, 0, 0⟩ = none :=
  (uniform_quad_elided ⟨[(⟨0, 0, 0⟩, some ⟨⟨0, 0, 0⟩, true, []⟩)]⟩
      ⟨⟨0, 0, 0⟩, true, 0, false⟩ "R" [] true ⟨0, 0, 0⟩
      ((allUniformBool_iff _ _).mp (by decide))).2.2 (by decide) ⟨0, 0, 0⟩
      (by decide) (by decide)

/-- C6 (amended): with the active origin at the zero coordinate and map
generation not globally disabled, every resident member of a quad at
horizontal (Chebyshev) distance greater than the window half-width from the
origin is queued for deletion by `flush(false)` and is no longer resident
afterwards. -/
theorem out_of_window_quad_deleted (b : mapbuffer) (ctx : GameCtx)
    (root : String) (log : List String) (q : tripoint)
    (hor : ctx.map_origin = ⟨0, 0, 0⟩) (hD : ctx.disable_mapgen = false)
    (hW : HALF_MAPSIZE < |q.x| ∨ HALF_MAPSIZE < |q.y|) :
    ∀ m ∈ submap_addrs_of q, isResident b m = true →
      m ∈ (b.save ctx root log false).deleted ∧
      alookup (b.save ctx root log false).buf.submaps m = none := by
  have hc : delete_cond ctx false q = true := by
    unfold delete_cond
    rw [hor]
    unfold HALF_MAPSIZE at hW ⊢
    dsimp only
    simp only [Bool.or_eq_true, decide_eq_true_eq]
    rcases hW with h | h <;> rcases lt_abs.mp h with h' | h'
    · exact Or.inl (Or.inr (by omega))
    · exact Or.inl (Or.inl (Or.inl (Or.inr (by omega))))
    · exact Or.inr (by omega)
    · exact Or.inl (Or.inl (Or.inr (by omega)))
  exact flush_deletes_quad b ctx root log false q (Or.inr hD) hc

/-- Witness for C6 at a concrete out-of-window quad with one resident
non-uniform member. -/
theorem out_of_window_quad_deleted_witness :
    ⟨12, 0, 0⟩ ∈ (mapbuffer.save
        ⟨[(⟨12, 0, 0⟩, some (make_submap ⟨144, 0, 0⟩))]⟩
        ⟨⟨0, 0, 0⟩, true, 0, false⟩ "R" [] false).deleted ∧
    alookup (mapbuffer.save ⟨[(⟨12, 0, 0⟩, some (make_submap ⟨144, 0, 0⟩))]⟩
        ⟨⟨0, 0, 0⟩, true, 0, false⟩ "R" [] false).buf.submaps ⟨12, 0, 0⟩ = none :=
  out_of_window_quad_deleted ⟨[(⟨12, 0, 0⟩, some (make_submap ⟨144, 0, 0⟩))]⟩
    ⟨⟨0, 0, 0⟩, true, 0, false⟩ "R" [] ⟨6, 0, 0⟩ rfl rfl (by decide)
    ⟨12, 0, 0⟩ (by decide) (by decide)

/-- C6 counterexample to the unamended claim: with map generation globally
disabled, a resident non-uniform quad beyond the window survives
`flush(false)` untouched — nothing is queued and the tile stays resident. -/
theorem out_of_window_quad_counterexample :
    (mapbuffer.save ⟨[(⟨12, 0, 0⟩, some (make_submap ⟨144, 0, 0⟩))]⟩
        ⟨⟨0, 0, 0⟩, true, 0, true⟩ "R" [] false).deleted = [] ∧
    alookup (mapbuffer.save ⟨[(⟨12, 0, 0⟩, some (make_submap ⟨144, 0, 0⟩))]⟩
        ⟨⟨0, 0, 0⟩, true, 0, true⟩ "R" [] false).buf.submaps ⟨12, 0, 0⟩ =
      some (some (make_submap ⟨144, 0, 0⟩)) := by
  decide

/-- C10 (amended): flush is not frame-preserving on the key set — for every
quad it processes, the uniformity scan subscripts the index at all four member
coordinates, so after the flush every member coordinate that was not removed
by this flush's deletion pass is a key; a previously absent member is mapped
to a null tile, a later get on it returns absence immediately and for any
filesystem, and a later insert on it returns false. -/
theorem flush_subscripts_all_members (b : mapbuffer) (ctx : GameCtx)
    (root : String) (log : List String) (del : Bool) (q : tripoint)
    (hq : ∃ k ∈ b.submaps.map Prod.fst, sm_to_omt_copy k = q) :
    ∀ m ∈ submap_addrs_of q,
      (m ∉ (b.save ctx root log del).deleted →
        (alookup (b.save ctx root log del).buf.submaps m).isSome) ∧
      (alookup b.submaps m = none →
        alookup (b.save ctx root log del).buf.submaps m = some none ∧
        (∀ w log', (b.save ctx root log del).buf.lookup_submap w log' m =
          CallResult.ret none (b.save ctx root log del).buf log') ∧
        (∀ t, ((b.save ctx root log del).buf.add_submap_ptr m (some t)).result =
          false)) := by
  obtain ⟨k, hk, hkq⟩ := hq
  obtain ⟨hinv, hall⟩ := saveState_inv b ctx root del
  have hqsaved : q ∈ (saveState b ctx root del).saved_submaps := by
    have := hall k hk
    rwa [hkq] at this
  intro m hm
  have homt : sm_to_omt_copy m = q := sm_to_omt_of_mem hm
  have hsome : (alookup (saveState b ctx root del).buf.submaps m).isSome :=
    hinv.buf_some m (by rw [homt]; exact hqsaved)
  constructor
  · intro hnd
    rw [save_deleted_eq] at hnd
    rw [save_buf_alookup, if_neg hnd]
    exact hsome
  · intro hab
    have hnd : m ∉ (saveState b ctx root del).submaps_to_delete := by
      intro hmem
      have := hinv.del_resident m hmem
      unfold isResident at this
      rw [hab] at this
      cases this
    have hval : alookup (saveState b ctx root del).buf.submaps m = some none := by
      rcases hinv.buf_pres m with hsame | ⟨_, hnull⟩
      · rw [hsame, hab] at hsome; cases hsome
      · exact hnull
    have hfin : alookup (b.save ctx root log del).buf.submaps m = some none := by
      rw [save_buf_alookup, if_neg hnd]
      exact hval
    refine ⟨hfin, ?_, ?_⟩
    · intro w log'
      unfold mapbuffer.lookup_submap
      rw [hfin]
    · intro t
      unfold mapbuffer.add_submap_ptr mapbuffer.add_submap
      rw [hfin]
      rfl

/-- Witness for C10 at a concrete store with one resident tile: the absent
sibling member of its quad becomes a null binding after the flush, and a
later get returns absence while a later insert fails. -/
theorem flush_subscripts_all_members_witness :
    alookup (mapbuffer.save ⟨[(⟨0, 0, 0⟩, some (make_submap ⟨0, 0, 0⟩))]⟩
        ⟨⟨0, 0, 0⟩, true, 0, false⟩ "R" [] false).buf.submaps ⟨1, 0, 0⟩ =
      some none ∧
    (∀ w log', (mapbuffer.save ⟨[(⟨0, 0, 0⟩, some (make_submap ⟨0, 0, 0⟩))]⟩
        ⟨⟨0, 0, 0⟩, true, 0, false⟩ "R" [] false).buf.lookup_submap w log'
        ⟨1, 0, 0⟩ =
      CallResult.ret none (mapbuffer.save
        ⟨[(⟨0, 0, 0⟩, some (make_submap ⟨0, 0, 0⟩))]⟩
        ⟨⟨0, 0, 0⟩, true, 0, false⟩ "R" [] false).buf log') ∧
    (∀ t, ((mapbuffer.save ⟨[(⟨0, 0, 0⟩, some (make_submap ⟨0, 0, 0⟩))]⟩
        ⟨⟨0, 0, 0⟩, true, 0, false⟩ "R" [] false).buf.add_submap_ptr ⟨1, 0, 0⟩
        (some t)).result = false) :=
  (flush_subscripts_all_members ⟨[(⟨0, 0, 0⟩, some (make_submap ⟨0, 0, 0⟩))]⟩
      ⟨⟨0, 0, 0⟩, true, 0, false⟩ "R" [] false ⟨0, 0, 0⟩
      ⟨⟨0, 0, 0⟩, by decide, by decide⟩ ⟨1, 0, 0⟩ (by decide)).2 rfl

/-- C10 counterexample to the unamended claim: after `flush(true)` on a store
whose only tile sits at the zero coordinate, that member coordinate is no
longer a key of the working set at all, and a later insert on it succeeds. -/
theorem flush_subscripts_all_members_counterexample :
    alookup (mapbuffer.save ⟨[(⟨0, 0, 0⟩, some (make_submap ⟨0, 0, 0⟩))]⟩
        ⟨⟨0, 0, 0⟩, true, 0, false⟩ "R" [] true).buf.submaps ⟨0, 0, 0⟩ = none ∧
    ((mapbuffer.save ⟨[(⟨0, 0, 0⟩, some (make_submap ⟨0, 0, 0⟩))]⟩
        ⟨⟨0, 0, 0⟩, true, 0, false⟩ "R" [] true).buf.add_submap_ptr ⟨0, 0, 0⟩
        (some (make_submap ⟨0, 0, 0⟩))).result = true := by
  decide

/-! ### Decoding the chunks produced by the write path -/

theorem readMembers_payload (pl : List (PayName × Int)) :
    ∀ (s0 : submap) (coords : tripoint) (ver : Int) (log : List String),
    readMembers (pl.map fun f => (f.1.val, JValue.jint f.2))
        ⟨some s0, coords, ver, log⟩ =
      RecOut.done ⟨some ⟨s0.pos, s0.is_uniform, s0.payload ++ pl⟩, coords, ver,
        log⟩ := by
  induction pl with
  | nil => intro s0 coords ver log; simp [readMembers]
  | cons f rest ih =>
    intro s0 coords ver log
    have hv : ¬ (f.1.val = "version") := f.1.2.1
    have hc : ¬ (f.1.val = "coordinates") := f.1.2.2
    rw [List.map_cons, readMembers, dif_neg hv, dif_neg hc]
    show readMembers (rest.map fun f => (f.1.val, JValue.jint f.2))
      ⟨some ⟨s0.pos, s0.is_uniform, s0.payload ++ [(⟨f.1.val, hv, hc⟩, f.2)]⟩,
        coords, ver, log⟩ = _
    rw [ih]
    have hf : (⟨f.1.val, hv, hc⟩ : PayName) = f.1 := Subtype.ext rfl
    rw [hf]
    simp

theorem readMembers_encodeRecord (m : tripoint) (sm : submap)
    (log : List String) :
    readMembers (encodeRecord m sm) ⟨none, ⟨0, 0, 0⟩, 0, log⟩ =
      RecOut.done ⟨some ⟨sm_to_ms_copy m, false, sm.payload⟩, m,
        savegame_version, log⟩ := by
  show readMembers (("version", JValue.jint savegame_version) ::
      ("coordinates", JValue.jarr [m.x, m.y, m.z]) ::
      (sm.payload.map fun f => (f.1.val, JValue.jint f.2)))
      ⟨none, ⟨0, 0, 0⟩, 0, log⟩ = _
  rw [readMembers, dif_pos rfl]
  show readMembers (("coordinates", JValue.jarr [m.x, m.y, m.z]) ::
      (sm.payload.map fun f => (f.1.val, JValue.jint f.2)))
      ⟨none, ⟨0, 0, 0⟩, savegame_version, log⟩ = _
  rw [readMembers, dif_neg (by decide), dif_pos rfl]
  show readMembers (sm.payload.map fun f => (f.1.val, JValue.jint f.2))
      ⟨some (make_submap (sm_to_ms_copy ⟨m.x, m.y, m.z⟩)), ⟨m.x, m.y, m.z⟩,
        savegame_version, log⟩ = _
  rw [readMembers_payload]
  show RecOut.done ⟨some ⟨sm_to_ms_copy ⟨m.x, m.y, m.z⟩, false,
      [] ++ sm.payload⟩, ⟨m.x, m.y, m.z⟩, savegame_version, log⟩ = _
  simp

theorem deserialize_fresh (recs : List (tripoint × submap)) :
    ∀ (B : mapbuffer) (log : List String),
    (∀ r ∈ recs, alookup B.submaps r.1 = none) →
    (recs.map Prod.fst).Nodup →
    mapbuffer.deserialize (recs.map fun r => encodeRecord r.1 r.2) B log =
      (LoadOutcome.ok,
       ⟨B.submaps ++ recs.map fun r => (r.1, some (freshTile r))⟩, log) := by
  induction recs with
  | nil =>
    intro B log _ _
    simp [mapbuffer.deserialize]
  | cons r rest ih =>
    intro B log habs hnd
    rw [List.map_cons, mapbuffer.deserialize, readMembers_encodeRecord]
    have hr : alookup B.submaps r.1 = none := habs r (List.mem_cons_self r rest)
    have hstep : B.add_submap_ptr r.1
        (some ⟨sm_to_ms_copy r.1, false, r.2.payload⟩) =
        ⟨⟨B.submaps ++ [(r.1, some (freshTile r))]⟩, true, true⟩ := by
      simp [mapbuffer.add_submap_ptr, mapbuffer.add_submap, hr, freshTile]
    show mapbuffer.deserialize (rest.map fun r => encodeRecord r.1 r.2)
        (B.add_submap_ptr r.1
          (some ⟨sm_to_ms_copy r.1, false, r.2.payload⟩)).buf
        (if (B.add_submap_ptr r.1
          (some ⟨sm_to_ms_copy r.1, false, r.2.payload⟩)).result then log
         else log ++ [dupMsg r.1]) = _
    rw [hstep]
    have hnd2 : (rest.map Prod.fst).Nodup := (List.nodup_cons.mp hnd).2
    have hnr : r.1 ∉ rest.map Prod.fst := (List.nodup_cons.mp hnd).1
    have habs2 : ∀ r' ∈ rest,
        alookup (B.submaps ++ [(r.1, some (freshTile r))]) r'.1 = none := by
      intro r' hr'
      rw [alookup_append_of_none _ (habs r' (List.mem_cons_of_mem r hr'))]
      have hne : ¬ (r.1 = r'.1) := by
        intro hh
        exact hnr (hh ▸ List.mem_map.mpr ⟨r', hr', rfl⟩)
      simp [hne]
    have := ih ⟨B.submaps ++ [(r.1, some (freshTile r))]⟩ log habs2 hnd2
    rw [if_pos rfl, this]
    simp

theorem alookup_map_recs (recs : List (tripoint × submap)) (c : tripoint)
    (t : submap) (hnd : (recs.map Prod.fst).Nodup) (hm : (c, t) ∈ recs) :
    alookup (recs.map fun r => (r.1, some (freshTile r))) c =
      some (some (freshTile (c, t))) := by
  induction recs with
  | nil => cases hm
  | cons r rest ih =>
    rcases List.mem_cons.mp hm with rfl | hm'
    · simp
    · have hne : ¬ (r.1 = c) := by
        intro hh
        exact (List.nodup_cons.mp hnd).1
          (hh ▸ List.mem_map.mpr ⟨(c, t), hm', rfl⟩)
      simp only [List.map_cons, alookup_cons, if_neg hne]
      exact ih (List.nodup_cons.mp hnd).2 hm'

theorem encodeQuad_recs (b : mapbuffer) (q : tripoint) :
    encodeQuad b q = (recsOf b q).map fun r => encodeRecord r.1 r.2 := by
  rw [encodeQuad_eq]
  unfold recsOf
  rw [List.map_filterMap]
  refine (List.filterMap_congr fun m hm => ?_).symm
  cases residentVal b m <;> rfl

theorem recsOf_fst_sublist (b : mapbuffer) (q : tripoint) :
    ((recsOf b q).map Prod.fst).Sublist (submap_addrs_of q) := by
  unfold recsOf
  induction submap_addrs_of q with
  | nil => simp
  | cons m rest ih =>
    rw [List.filterMap_cons]
    cases residentVal b m with
    | none => exact ih.cons m
    | some s => simpa using ih.cons₂ m

theorem mem_recsOf {b : mapbuffer} {q c : tripoint} {t : submap}
    (hm : c ∈ submap_addrs_of q) (ht : alookup b.submaps c = some (some t)) :
    (c, t) ∈ recsOf b q := by
  unfold recsOf
  exact List.mem_filterMap.mpr ⟨c, hm, by simp [residentVal, ht]⟩

theorem alookup_of_forall_mem (l : List (String × Chunk)) (k : String)
    (v : Chunk) (hex : ∃ e ∈ l, e.1 = k)
    (hall : ∀ e ∈ l, e.1 = k → e.2 = v) :
    ∀ rest, alookup (l ++ rest) k = some v := by
  induction l with
  | nil => obtain ⟨e, he, _⟩ := hex; cases he
  | cons e l' ih =>
    intro rest
    by_cases he : e.1 = k
    · simp only [List.cons_append, alookup_cons, if_pos he]
      rw [hall e (List.mem_cons_self e l') he]
    · simp only [List.cons_append, alookup_cons, if_neg he]
      obtain ⟨e', he', hk⟩ := hex
      rcases List.mem_cons.mp he' with rfl | he2
      · exact absurd hk he
      · exact ih ⟨e', he2, hk⟩
          (fun e'' he'' hk'' => hall e'' (List.mem_cons_of_mem e he'') hk'') rest

/-- C7 (amended): with map generation not globally disabled, flushing a store
holding a resident, non-uniform tile at `c` and then demand-loading `c` into a
fresh store from the resulting filesystem reproduces an equivalent tile: it is
resident again at `c`, not uniform, and carries the same payload fields. -/
theorem flush_roundtrip (b : mapbuffer) (ctx : GameCtx) (w : World)
    (log : List String) (c : tripoint) (t : submap)
    (hD : ctx.disable_mapgen = false)
    (hres : alookup b.submaps c = some (some t))
    (hu : t.is_uniform = false) :
    ∃ bf : mapbuffer,
      mapbuffer.lookup_submap ⟨[]⟩
        ⟨w.world_root,
          applyWrites w.fs (b.save ctx w.world_root log false).writes,
          w.locale⟩ [] c =
      CallResult.ret (some ⟨sm_to_ms_copy c, false, t.payload⟩) bf [] := by
  have hkey : c ∈ b.submaps.map Prod.fst :=
    alookup_isSome_mem _ _ (by rw [hres]; rfl)
  obtain ⟨hinv, hall⟩ := saveState_inv b ctx w.world_root false
  have hq : sm_to_omt_copy c ∈
      (saveState b ctx w.world_root false).saved_submaps := hall c hkey
  have hUq : allUniformBool b (sm_to_omt_copy c) = false := by
    cases hA : allUniformBool b (sm_to_omt_copy c) with
    | false => rfl
    | true =>
      have := (allUniformBool_iff b (sm_to_omt_copy c)).mp hA c
        (mem_submap_addrs c) t hres
      rw [this] at hu
      cases hu
  have hwmem : (canonPath w.world_root (sm_to_omt_copy c),
      encodeQuad b (sm_to_omt_copy c)) ∈
      (b.save ctx w.world_root log false).writes := by
    rw [save_writes_eq]
    exact hinv.writes_exist _ hq hUq hD
  have hall2 : ∀ e ∈ (b.save ctx w.world_root log false).writes,
      e.1 = canonPath w.world_root (sm_to_omt_copy c) →
      e.2 = encodeQuad b (sm_to_omt_copy c) := by
    intro e he hp
    rw [save_writes_eq] at he
    obtain ⟨q', _, hp', hc', _, _⟩ := hinv.writes_shape e he
    have hq' : q' = sm_to_omt_copy c := canonPath_inj _ (hp'.symm.trans hp)
    rw [← hq']
    exact hc'
  have hfs : alookup
      (applyWrites w.fs (b.save ctx w.world_root log false).writes)
      (canonPath w.world_root (sm_to_omt_copy c)) =
      some (encodeQuad b (sm_to_omt_copy c)) := by
    unfold applyWrites
    refine alookup_of_forall_mem _ _ _
      ⟨_, List.mem_reverse.mpr hwmem, rfl⟩
      (fun e he hp => hall2 e (List.mem_reverse.mp he) hp) _
  have hnd : ((recsOf b (sm_to_omt_copy c)).map Prod.fst).Nodup :=
    (submap_addrs_nodup (sm_to_omt_copy c)).sublist
      (recsOf_fst_sublist b (sm_to_omt_copy c))
  have hdec : mapbuffer.deserialize (encodeQuad b (sm_to_omt_copy c)) ⟨[]⟩ [] =
      (LoadOutcome.ok,
       ⟨[] ++ (recsOf b (sm_to_omt_copy c)).map fun r =>
         (r.1, some (freshTile r))⟩, []) := by
    rw [encodeQuad_recs]
    exact deserialize_fresh _ _ _ (fun r _ => rfl) hnd
  have hfinal : alookup ([] ++ (recsOf b (sm_to_omt_copy c)).map fun r =>
      (r.1, some (freshTile r))) c = some (some (freshTile (c, t))) := by
    rw [List.nil_append]
    exact alookup_map_recs _ c t hnd (mem_recsOf (mem_submap_addrs c) hres)
  refine ⟨⟨[] ++ (recsOf b (sm_to_omt_copy c)).map fun r =>
    (r.1, some (freshTile r))⟩, ?_⟩
  unfold mapbuffer.lookup_submap mapbuffer.unserialize_submaps
  dsimp only
  simp only [alookup_nil]
  have hfs' := hfs
  unfold canonPath at hfs'
  have hfe : file_exist
      (applyWrites w.fs (b.save ctx w.world_root log false).writes)
      (find_quad_path (find_dirname w.world_root (sm_to_omt_copy c))
        (sm_to_omt_copy c)) = true := by
    unfold file_exist
    rw [hfs']
    rfl
  rw [if_pos hfe, hfs']
  dsimp only
  rw [hdec]
  dsimp only
  rw [hfinal]
  rfl

/-- Witness for C7 at a concrete one-tile store and empty filesystem. -/
theorem flush_roundtrip_witness :
    ∃ bf : mapbuffer,
      mapbuffer.lookup_submap ⟨[]⟩
        ⟨"R", applyWrites []
          (mapbuffer.save
            ⟨[(⟨2, 3, 0⟩, some ⟨⟨24, 36, 0⟩, false, [(⟨"terrain", by decide⟩, 7)]⟩)]⟩
            ⟨⟨0, 0, 0⟩, true, 0, false⟩ "R" [] false).writes, itos⟩ [] ⟨2, 3, 0⟩ =
      CallResult.ret
        (some ⟨sm_to_ms_copy ⟨2, 3, 0⟩, false, [(⟨"terrain", by decide⟩, 7)]⟩)
        bf [] :=
  flush_roundtrip
    ⟨[(⟨2, 3, 0⟩, some ⟨⟨24, 36, 0⟩, false, [(⟨"terrain", by decide⟩, 7)]⟩)]⟩
    ⟨⟨0, 0, 0⟩, true, 0, false⟩ ⟨"R", [], itos⟩ [] ⟨2, 3, 0⟩
    ⟨⟨24, 36, 0⟩, false, [(⟨"terrain", by decide⟩, 7)]⟩ rfl (by decide) rfl

/-- C7 counterexample to the unamended claim: with map generation globally
disabled, the flush writes nothing and a fresh store's get finds no chunk
file, returning absence instead of the tile. -/
theorem flush_roundtrip_counterexample :
    mapbuffer.lookup_submap ⟨[]⟩
      ⟨"R", applyWrites []
        (mapbuffer.save
          ⟨[(⟨2, 3, 0⟩, some ⟨⟨24, 36, 0⟩, false, [(⟨"terrain", by decide⟩, 7)]⟩)]⟩
          ⟨⟨0, 0, 0⟩, true, 0, true⟩ "R" [] false).writes, itos⟩ [] ⟨2, 3, 0⟩ =
    CallResult.ret none ⟨[]⟩ [] := by
  decide

/-- C8: when no file exists at the canonical chunk path but one exists at the
legacy locale-formatted name, the demand-load reads the legacy file and get
recovers the tile; and the write path only ever writes canonical paths (the
fallback is read-only). -/
theorem legacy_fallback_read_only :
    (∀ (b : mapbuffer) (w : World) (log : List String) (p : tripoint)
        (ch : Chunk) (b' : mapbuffer) (log' : List String) (v : Option submap),
      alookup b.submaps p = none →
      alookup w.fs (canonPath w.world_root (sm_to_omt_copy p)) = none →
      alookup w.fs (legacy_quad_path w.locale
        (find_dirname w.world_root (sm_to_omt_copy p)) (sm_to_omt_copy p)) =
        some ch →
      mapbuffer.deserialize ch b log = (LoadOutcome.ok, b', log') →
      alookup b'.submaps p = some v →
      b.lookup_submap w log p = CallResult.ret v b' log') ∧
    (∀ (b : mapbuffer) (ctx : GameCtx) (root : String) (log : List String)
        (del : Bool), ∀ e ∈ (b.save ctx root log del).writes,
      ∃ q : tripoint, e.1 = canonPath root q) := by
  constructor
  · intro b w log p ch b' log' v hb hc hl hd hv
    unfold canonPath at hc
    have hcf : file_exist w.fs (find_quad_path
        (find_dirname w.world_root (sm_to_omt_copy p)) (sm_to_omt_copy p)) =
        false := by
      unfold file_exist
      rw [hc]
      rfl
    have hlf : file_exist w.fs (legacy_quad_path w.locale
        (find_dirname w.world_root (sm_to_omt_copy p)) (sm_to_omt_copy p)) =
        true := by
      unfold file_exist
      rw [hl]
      rfl
    unfold mapbuffer.lookup_submap mapbuffer.unserialize_submaps
    dsimp only
    rw [hb]
    dsimp only
    rw [if_neg (by rw [hcf]; exact Bool.false_ne_true), if_pos hlf, hl]
    dsimp only
    rw [hd]
    dsimp only
    rw [hv]
  · intro b ctx root log del e he
    rw [save_writes_eq] at he
    obtain ⟨q, _, hp, _, _, _⟩ :=
      (saveState_inv b ctx root del).1.writes_shape e he
    exact ⟨q, hp⟩

/-- Witness for C8: a chunk present only under the comma-grouped legacy name
(locale inserts a thousands separator into the quad x coordinate) is read by
the fallback and its tile recovered. -/
theorem legacy_fallback_read_only_witness :
    mapbuffer.lookup_submap ⟨[]⟩
      ⟨"ROOT",
        [(legacy_quad_path (fun i => if i = 1234 then "1,234" else itos i)
            (find_dirname "ROOT" ⟨1234, 1, 3⟩) ⟨1234, 1, 3⟩,
          [[("version", JValue.jint 33),
            ("coordinates", JValue.jarr [2468, 2, 3]),
            ("terrain", JValue.jint 5)]])],
        fun i => if i = 1234 then "1,234" else itos i⟩ [] ⟨2468, 2, 3⟩ =
    CallResult.ret
      (some ⟨⟨29616, 24, 3⟩, false, [(⟨"terrain", by decide⟩, 5)]⟩)
      ⟨[(⟨2468, 2, 3⟩,
        some ⟨⟨29616, 24, 3⟩, false, [(⟨"terrain", by decide⟩, 5)]⟩)]⟩ [] :=
  legacy_fallback_read_only.1 ⟨[]⟩
    ⟨"ROOT",
      [(legacy_quad_path (fun i => if i = 1234 then "1,234" else itos i)
          (find_dirname "ROOT" ⟨1234, 1, 3⟩) ⟨1234, 1, 3⟩,
        [[("version", JValue.jint 33),
          ("coordinates", JValue.jarr [2468, 2, 3]),
          ("terrain", JValue.jint 5)]])],
      fun i => if i = 1234 then "1,234" else itos i⟩ [] ⟨2468, 2, 3⟩
    [[("version", JValue.jint 33), ("coordinates", JValue.jarr [2468, 2, 3]),
      ("terrain", JValue.jint 5)]]
    ⟨[(⟨2468, 2, 3⟩,
      some ⟨⟨29616, 24, 3⟩, false, [(⟨"terrain", by decide⟩, 5)]⟩)]⟩ []
    (some ⟨⟨29616, 24, 3⟩, false, [(⟨"terrain", by decide⟩, 5)]⟩)
    rfl (by decide) (by decide) (by decide) (by decide)

/-- Witness for C2 at a concrete store, coordinate and tiles. -/
theorem insert_at_most_one_resident_witness :
    (((⟨[]⟩ : mapbuffer).add_submap_ptr ⟨1, 2, 3⟩
        (some (make_submap ⟨0, 0, 0⟩))).buf.add_submap_ptr ⟨1, 2, 3⟩
        (some (make_submap ⟨9, 9, 9⟩))).result = false ∧
    (((⟨[]⟩ : mapbuffer).add_submap_ptr ⟨1, 2, 3⟩
        (some (make_submap ⟨0, 0, 0⟩))).buf.add_submap_ptr ⟨1, 2, 3⟩
        (some (make_submap ⟨9, 9, 9⟩))).released = false :=
  ⟨(insert_at_most_one_resident ⟨[]⟩ ⟨1, 2, 3⟩ (make_submap ⟨0, 0, 0⟩)
      (make_submap ⟨9, 9, 9⟩) rfl).2.1,
   (insert_at_most_one_resident ⟨[]⟩ ⟨1, 2, 3⟩ (make_submap ⟨0, 0, 0⟩)
      (make_submap ⟨9, 9, 9⟩) rfl).2.2.1⟩

/-- Witness for C5 at a concrete chunk whose only record duplicates a resident
coordinate. -/
theorem duplicate_record_is_rejected_witness :
    mapbuffer.deserialize
        [[("version", JValue.jint 33), ("coordinates", JValue.jarr [1, 2, 3])]]
        ⟨[(⟨1, 2, 3⟩, some (make_submap ⟨0, 0, 0⟩))]⟩ [] =
      mapbuffer.deserialize []
        ⟨[(⟨1, 2, 3⟩, some (make_submap ⟨0, 0, 0⟩))]⟩ ([] ++ [dupMsg ⟨1, 2, 3⟩]) :=
  (duplicate_record_is_rejected_and_load_continues
    [("version", JValue.jint 33), ("coordinates", JValue.jarr [1, 2, 3])] []
    ⟨[(⟨1, 2, 3⟩, some (make_submap ⟨0, 0, 0⟩))]⟩ []
    ⟨some (make_submap (sm_to_ms_copy ⟨1, 2, 3⟩)), ⟨1, 2, 3⟩, 33, []⟩
    (some (make_submap ⟨0, 0, 0⟩)) rfl rfl).1

/-- Witness for C4: a resident hit returned unchanged, and a miss with no
chunk file on disk returned as absence. -/
theorem lookup_submap_spec_witness :
    (⟨[(⟨1, 2, 3⟩, some (make_submap ⟨0, 0, 0⟩))]⟩ : mapbuffer).lookup_submap
        ⟨"R", [], itos⟩ [] ⟨1, 2, 3⟩ =
      CallResult.ret (some (make_submap ⟨0, 0, 0⟩))
        ⟨[(⟨1, 2, 3⟩, some (make_submap ⟨0, 0, 0⟩))]⟩ [] ∧
    (⟨[]⟩ : mapbuffer).lookup_submap ⟨"R", [], itos⟩ [] ⟨0, 0, 0⟩ =
      CallResult.ret none ⟨[]⟩ [] :=
  ⟨(lookup_submap_spec ⟨[(⟨1, 2, 3⟩, some (make_submap ⟨0, 0, 0⟩))]⟩
      ⟨"R", [], itos⟩ [] ⟨1, 2, 3⟩).1 (some (make_submap ⟨0, 0, 0⟩)) rfl,
   (lookup_submap_spec ⟨[]⟩ ⟨"R", [], itos⟩ [] ⟨0, 0, 0⟩).2.1 rfl rfl rfl⟩

end Cata
